import Mathlib

/-! # Bender serial sensor: line framing, checksum validation, tokenizing and dispatch

A shallow embedding of `BenderSerialSensor` (`src/bender_serial_sensor/bender_serial_sensor.h`,
the header implementation, and `src/components/bender_serial_sensor/bender_serial_sensor.cpp`,
the component implementation).

Conventions of the embedding

* A `char` is a byte, `Fin 256`; a `std::string` is a list of bytes (`Str`).  A string may
  hold any byte, NUL included.
* `std::string::npos` is `none`.
* The side effects of the code (log calls, `publish_state` calls) are returned as a list of
  `Event`s, in program order.  The arguments of a log call are recorded as the strings whose
  `c_str()` is handed to the logger; how the logger renders them is not part of the embedding.
* `std::stoi` is embedded in full (`strtol` in base 10 with the range check of `int`, 32 bit).
  `std::stof` is a library function whose result is a floating-point number; the functions
  that call it take it as the parameter `stof`, `Except.error` standing for a thrown
  exception.
* An exception that leaves `process_line` is not caught anywhere in the repository; an
  indexing of a `std::vector` outside its bounds is undefined behaviour.  Both are embedded as
  a `Fault`, after which nothing further is executed.
* The header implementation keeps its line buffer in a `static` variable, the state `Core`;
  the component implementation reads each line into a local variable (`read_line`) and keeps
  nothing but the registry between two calls of `loop()`.
-/

namespace BenderSerialSensor

/-- A `char`, seen through `static_cast<unsigned char>`. -/
abbrev Byte := Fin 256

/-- A `std::string`. -/
abbrev Str := List Byte

/-- The bytes of an ASCII literal. -/
def bytes (s : String) : Str := s.toList.map (fun c => Fin.ofNat c.toNat)

/-- Line feed. -/
def LF : Byte := 10
/-- Carriage return. -/
def CR : Byte := 13
/-- The checksum delimiter. -/
def STAR : Byte := 42
/-- The field separator of the tokenizer. -/
def SPACE : Byte := 32
/-- Horizontal tab. -/
def TAB : Byte := 9

/-! ## `validate_checksum` of the header implementation (lines 95-112) -/

/-- `std::string::find(char)`: index of the first occurrence, `none` for `npos`. -/
def find : Str → Byte → Option Nat
  | [], _ => none
  | b :: rest, c => if b = c then some 0 else (find rest c).map (· + 1)

/-- `std::string::substr(pos)` for `pos ≤ size()`. -/
def substrFrom (s : Str) (pos : Nat) : Str := s.drop pos

/-- `std::string::substr(pos, n)` for `pos ≤ size()`. -/
def substr (s : Str) (pos n : Nat) : Str := (s.drop pos).take n

/-- The loop `for (char ch : data) calculated_checksum += static_cast<unsigned char>(ch);`
on an `unsigned int` (32 bit, wrapping). -/
def checksumLoop (data : Str) : Nat :=
  data.foldl (fun acc ch => (acc + ch.val) % 2 ^ 32) 0

/-- One digit of the conversion `%X`. -/
def hexDigit (d : Nat) : Byte :=
  if d < 10 then Fin.ofNat (48 + d) else Fin.ofNat (55 + d)

/-- `snprintf(calculated_hex, 3, "%02X", v)` for `v ≤ 255`: two uppercase hexadecimal
digits. -/
def format02X (v : Nat) : Str := [hexDigit (v / 16), hexDigit (v % 16)]

/-- `validate_checksum`. -/
def validate_checksum (line : Str) : Bool :=
  match find line STAR with
  | none => false
  | some asterisk =>
    let data := substr line 0 asterisk
    let checksum_received := substrFrom line (asterisk + 1)
    let calculated_checksum := checksumLoop data % 256
    let calculated_hex := format02X calculated_checksum
    decide (checksum_received = calculated_hex)

/-! ## Library functions used by `process_line` -/

/-- What ends the execution: an exception that nothing catches, or an access outside a
`std::vector`. -/
inductive Fault
  /-- The exception `std::invalid_argument` of `std::stoi` or `std::stof`. -/
  | invalid_argument
  /-- The exception `std::out_of_range` of `std::stoi` or `std::stof`. -/
  | out_of_range
  /-- The call `operator[]` of a `std::vector` with an index that is not below `size()`. -/
  | vector_index
  deriving DecidableEq, Repr

deriving instance DecidableEq for Except

/-- The function `isspace` of the C locale. -/
def isspace (c : Byte) : Bool := decide (c = 32 ∨ (9 ≤ c.val ∧ c.val ≤ 13))

/-- The function `isdigit`. -/
def isdigit (c : Byte) : Bool := decide (48 ≤ c.val ∧ c.val ≤ 57)

/-- The value of a run of decimal digits. -/
def digitsValue (ds : Str) : Nat := ds.foldl (fun acc d => 10 * acc + (d.val - 48)) 0

/-- `std::stoi(str)`: `strtol` in base 10 (leading white space, an optional sign, the longest
run of digits; what follows is ignored), `std::invalid_argument` when there is no digit,
`std::out_of_range` when the value is not an `int`. -/
def stoi (s : Str) : Except Fault Int :=
  let s1 := s.dropWhile isspace
  let neg := decide (s1.head? = some 45)
  let s2 := if s1.head? = some 45 ∨ s1.head? = some 43 then s1.tail else s1
  let ds := s2.takeWhile isdigit
  if ds.isEmpty then .error .invalid_argument
  else
    let v : Int := if neg then -(digitsValue ds : Int) else (digitsValue ds : Int)
    if v < -2147483648 ∨ 2147483647 < v then .error .out_of_range else .ok v

/-- `operator[]` of a `std::vector`. -/
def vget {α : Type} (v : List α) (i : Nat) : Except Fault α :=
  match v[i]? with
  | some a => .ok a
  | none => .error .vector_index

/-! ## The tokenizer (header lines 120-126, component lines 104-110: the same text) -/

/-- One call `std::getline(ss, item, delim)` on the unread rest `ss` of the stream: `none`
when the call fails (nothing left to extract), else the item and the new unread rest (the
delimiter is extracted and dropped). -/
def getline (ss : Str) (delim : Byte) : Option (Str × Str) :=
  match ss with
  | [] => none
  | _ :: _ => some (ss.takeWhile (fun c => c != delim), (ss.dropWhile (fun c => c != delim)).drop 1)

/-- The loop `while (std::getline(ss, item, ' ')) if (!item.empty()) parts.push_back(item);`,
at most `fuel` iterations. -/
def tokenLoop : Nat → Str → List Str → List Str
  | 0, _, parts => parts
  | fuel + 1, ss, parts =>
    match getline ss SPACE with
    | none => parts
    | some (item, rest) => tokenLoop fuel rest (if item.isEmpty then parts else parts ++ [item])

/-- The token list `parts` of the body `data`.  One iteration extracts at least one byte, so
`data.length + 1` iterations reach the failing `getline` (`tokenLoop_fuel`). -/
def tokenize (data : Str) : List Str := tokenLoop (data.length + 1) data []

/-! ## The sink registry and the effects -/

/-- A `sensor::Sensor *`, as the identity of the sensor it points to. -/
abbrev SinkId := Nat

/-- The member `std::map<int, std::vector<sensor::Sensor *>> bender_sensors`: the entries,
looked up from the front. -/
abbrev Registry := List (Int × List SinkId)

/-- `bender_sensors.count(k)`. -/
def Registry.count (m : Registry) (k : Int) : Nat :=
  match m.lookup k with
  | some _ => 1
  | none => 0

/-- `bender_sensors[k]`, the `operator[]` of `std::map`: the mapped vector, and the map after
the call; an absent key is inserted with an empty vector. -/
def Registry.index (m : Registry) (k : Int) : List SinkId × Registry :=
  match m.lookup k with
  | some v => (v, m)
  | none => ([], m ++ [(k, [])])

/-- The argument of `publish_state`. -/
inductive Val (F : Type)
  /-- An `int`, converted to `float` by the call. -/
  | ofInt (i : Int)
  /-- A `float`, as `std::stof` returned it. -/
  | ofFloat (f : F)
  deriving DecidableEq, Repr

/-- The log calls of the two implementations. -/
inductive Diag
  /-- `ESP_LOGW("custom", "Checksum validation failed or line is empty: %s", line.c_str())`. -/
  | checksumFailedOrEmpty (line : Str)
  /-- `ESP_LOGD("custom", "Analog Input %d: %s", i, parts[i+2].c_str())`. -/
  | analogInput (i : Nat) (reading : Str)
  /-- `ESP_LOGW("custom", "Fault Message: %s", fault_message.c_str())`. -/
  | faultMessage (fault_message : Str)
  /-- `ESP_LOGW("custom", "Unhandled message type or not enough parts: %s", line.c_str())`. -/
  | unhandled (line : Str)
  /-- `ESP_LOGD("custom", "Processing time: %lu ms", end_time - start_time)`; the elapsed
  time is not part of the embedding. -/
  | processingTime
  deriving DecidableEq, Repr

/-- What the code does to the outside, and the two calls the loop makes. -/
inductive Event (F : Type)
  /-- The loop calls `validate_checksum(line)`. -/
  | validate (line : Str)
  /-- The loop calls `process_line(line)`. -/
  | process (line : Str)
  /-- The call `sink->publish_state(value)`. -/
  | publish (sink : SinkId) (value : Val F)
  /-- A log call. -/
  | log (d : Diag)
  deriving DecidableEq, Repr

/-- The result of running `process_line`: the effects in order, the registry afterwards, and
the fault that ended the run, if any. -/
structure Outcome (F : Type) where
  events : List (Event F)
  bender_sensors : Registry
  fault : Option Fault
  deriving DecidableEq, Repr

/-! ## `process_line` -/

/-- The loop of the analog branch,
`for (int i = 0; i < input_count && (i+2) < parts.size(); i++) ESP_LOGD(..., i, parts[i+2])`,
at most `fuel` iterations from `i`: the log calls, and the fault of `parts[i+2]` if any.
The counter is a natural number: `i + 2` is bounded by `parts.size()`, far below the range of
`int`. -/
def ainLoop {F : Type} : Nat → Nat → Int → List Str → List (Event F) × Option Fault
  | 0, _, _, _ => ([], none)
  | fuel + 1, i, input_count, parts =>
    if (i : Int) < input_count ∧ i + 2 < parts.length then
      match vget parts (i + 2) with
      | .error e => ([], some e)
      | .ok reading =>
        let r := ainLoop fuel (i + 1) input_count parts
        (Event.log (Diag.analogInput i reading) :: r.1, r.2)
    else ([], none)

/-- The loop of the fault branch over the iterator range from `parts.begin() + 1`:
`if (it != parts.begin() + 1) fault_message += " "; fault_message += *it;`. -/
def faultLoop : List Str → Bool → Str → Str
  | [], _, fault_message => fault_message
  | it :: rest, first, fault_message =>
    faultLoop rest false ((if first then fault_message else fault_message ++ [SPACE]) ++ it)

/-- The branch `parts[0] == "BGF" && parts.size() >= 7` of both implementations; `tail` is
what the implementation does after the branch (the header logs the processing time).  In
each of the two statements the sink expression is evaluated before the argument. -/
def bgfBranch {F : Type} (stof : Str → Except Fault F) (bender_sensors : Registry)
    (parts : List Str) (tail : List (Event F)) : Outcome F :=
  match vget parts 1 with
  | .error e => ⟨[], bender_sensors, some e⟩
  | .ok p1 =>
  match stoi p1 with
  | .error e => ⟨[], bender_sensors, some e⟩
  | .ok bender_id =>
    if Registry.count bender_sensors bender_id > 0 then
      let (v0, m1) := Registry.index bender_sensors bender_id
      match vget v0 0 with
      | .error e => ⟨[], m1, some e⟩
      | .ok status_sink =>
      match vget parts 2 with
      | .error e => ⟨[], m1, some e⟩
      | .ok p2 =>
      match stoi p2 with
      | .error e => ⟨[], m1, some e⟩
      | .ok status =>
        let published := [Event.publish status_sink (Val.ofInt status)]
        let (v1, m2) := Registry.index m1 bender_id
        match vget v1 1 with
        | .error e => ⟨published, m2, some e⟩
        | .ok resistance_sink =>
        match vget parts 6 with
        | .error e => ⟨published, m2, some e⟩
        | .ok p6 =>
        match stof p6 with
        | .error e => ⟨published, m2, some e⟩
        | .ok resistance =>
          ⟨published ++ Event.publish resistance_sink (Val.ofFloat resistance) :: tail, m2, none⟩
    else ⟨tail, bender_sensors, none⟩

/-- `process_line` of the header implementation (lines 115-156). -/
def process_line {F : Type} (stof : Str → Except Fault F) (bender_sensors : Registry)
    (line : Str) : Outcome F :=
  match find line STAR with
  | none => ⟨[], bender_sensors, none⟩
  | some asterisk =>
    let data := substr line 0 asterisk
    let parts := tokenize data
    if parts.isEmpty then ⟨[], bender_sensors, none⟩
    else
      match vget parts 0 with
      | .error e => ⟨[], bender_sensors, some e⟩
      | .ok p0 =>
        if p0 = bytes "BGF" ∧ parts.length ≥ 7 then
          bgfBranch stof bender_sensors parts [Event.log Diag.processingTime]
        else if p0 = bytes "AIN" ∧ parts.length ≥ 2 then
          match vget parts 1 with
          | .error e => ⟨[], bender_sensors, some e⟩
          | .ok p1 =>
          match stoi p1 with
          | .error e => ⟨[], bender_sensors, some e⟩
          | .ok input_count =>
            match ainLoop parts.length 0 input_count parts with
            | (logged, some e) => ⟨logged, bender_sensors, some e⟩
            | (logged, none) => ⟨logged ++ [Event.log Diag.processingTime], bender_sensors, none⟩
        else if p0 = bytes "GFS" then
          let fault_message := faultLoop (parts.drop 1) true []
          ⟨[Event.log (Diag.faultMessage fault_message), Event.log Diag.processingTime],
            bender_sensors, none⟩
        else
          ⟨[Event.log (Diag.unhandled line), Event.log Diag.processingTime], bender_sensors, none⟩

/-- `process_line` of the component implementation (`.cpp` lines 100-121). -/
def process_line_component {F : Type} (stof : Str → Except Fault F) (bender_sensors : Registry)
    (line : Str) : Outcome F :=
  match find line STAR with
  | none => ⟨[], bender_sensors, none⟩
  | some asterisk =>
    let data := substr line 0 asterisk
    let parts := tokenize data
    if parts.isEmpty then ⟨[], bender_sensors, none⟩
    else
      match vget parts 0 with
      | .error e => ⟨[], bender_sensors, some e⟩
      | .ok p0 =>
        if p0 = bytes "BGF" ∧ parts.length ≥ 7 then
          bgfBranch stof bender_sensors parts []
        else ⟨[], bender_sensors, none⟩

/-! ## `loop` of the header implementation (lines 78-93) -/

/-- The state that outlives a call of `loop`. -/
structure Core where
  /-- The variable `static std::string line`. -/
  line : Str
  /-- The member `bender_sensors`. -/
  bender_sensors : Registry
  /-- The fault that ended the execution, if one did. -/
  fault : Option Fault
  deriving DecidableEq, Repr

/-- The body of the `while` loop for the byte `c = read()`.  The condition
`!line.empty() && validate_checksum(line)` is short-circuited: `validate_checksum` is called
for a non-empty line only, and both ways of failing the condition reach the same log call.
When `process_line` ends in a fault, `line.clear()` is not reached. -/
def loopByte {F : Type} (stof : Str → Except Fault F) (st : Core) (c : Byte) :
    Core × List (Event F) :=
  if c = LF then
    if st.line.isEmpty then
      ({ st with line := [] }, [Event.log (Diag.checksumFailedOrEmpty st.line)])
    else if validate_checksum st.line then
      let o := process_line stof st.bender_sensors st.line
      match o.fault with
      | some e =>
        ({ line := st.line, bender_sensors := o.bender_sensors, fault := some e },
          Event.validate st.line :: Event.process st.line :: o.events)
      | none =>
        ({ line := [], bender_sensors := o.bender_sensors, fault := none },
          Event.validate st.line :: Event.process st.line :: o.events)
    else
      ({ st with line := [] },
        [Event.validate st.line, Event.log (Diag.checksumFailedOrEmpty st.line)])
  else if c ≠ CR then ({ st with line := st.line ++ [c] }, [])
  else (st, [])

/-- One call of `loop()` with the bytes `avail` available on the UART: the state afterwards
and the effects.  After a fault nothing is executed. -/
def loop {F : Type} (stof : Str → Except Fault F) : Core → Str → Core × List (Event F)
  | st, [] => (st, [])
  | st, c :: rest =>
    match st.fault with
    | some _ => (st, [])
    | none =>
      let r1 := loopByte stof st c
      let r2 := loop stof r1.1 rest
      (r2.1, r1.2 ++ r2.2)

/-- Successive calls of `loop()`, one per chunk of available bytes. -/
def loops {F : Type} (stof : Str → Except Fault F) : Core → List Str → Core × List (Event F)
  | st, [] => (st, [])
  | st, chunk :: later =>
    let r1 := loop stof st chunk
    let r2 := loops stof r1.1 later
    (r2.1, r1.2 ++ r2.2)

/-- The state at start-up with the registry `m`. -/
def Core.start (m : Registry) : Core := { line := [], bender_sensors := m, fault := none }

/-- The lines handed to `process_line`. -/
def processedLines {F : Type} (es : List (Event F)) : List Str :=
  es.filterMap (fun e => match e with | Event.process l => some l | _ => none)

/-- The lines handed to `validate_checksum`. -/
def validatedLines {F : Type} (es : List (Event F)) : List Str :=
  es.filterMap (fun e => match e with | Event.validate l => some l | _ => none)

/-- The sink publications. -/
def publications {F : Type} (es : List (Event F)) : List (SinkId × Val F) :=
  es.filterMap (fun e => match e with | Event.publish s v => some (s, v) | _ => none)

/-- The log calls. -/
def diagnostics {F : Type} (es : List (Event F)) : List Diag :=
  es.filterMap (fun e => match e with | Event.log d => some d | _ => none)

/-! ## The component implementation: `validate_checksum`, `read_line`, `loop`
(`.cpp` lines 70-98 and 123-130) -/

/-- `validate_checksum` of the component implementation (`.cpp` lines 81-98). -/
def validate_checksum_component (line : Str) : Bool :=
  match find line STAR with
  | none => false
  | some asterisk =>
    let data := substr line 0 asterisk
    let checksum_received := substrFrom line (asterisk + 1)
    let calculated_checksum := checksumLoop data % 256
    let calculated_hex := format02X calculated_checksum
    decide (checksum_received = calculated_hex)

/-- The loop of `read_line` (`.cpp` lines 123-130),
`while (available() && (c = read()) != '\n') if (c != '\r') line += c;`, on the bytes
available: the line returned and the bytes left unread.  The line is a local variable, empty
at every call. -/
def read_line_loop : Str → Str → Str × Str
  | line, [] => (line, [])
  | line, c :: rest =>
    if c = LF then (line, rest)
    else if c ≠ CR then read_line_loop (line ++ [c]) rest
    else read_line_loop line rest

/-- `read_line` of the component implementation. -/
def read_line (avail : Str) : Str × Str := read_line_loop [] avail

/-- `loop` of the component implementation (`.cpp` lines 70-79),
`while (available()) { std::string line = read_line(); ... }`, at most `fuel` iterations: the
effects, the registry afterwards and the fault that ended the run, if any. -/
def loop_component_fuel {F : Type} (stof : Str → Except Fault F) :
    Nat → Registry → Str → Outcome F
  | 0, m, _ => ⟨[], m, none⟩
  | fuel + 1, m, avail =>
    match avail with
    | [] => ⟨[], m, none⟩
    | _ :: _ =>
      let r := read_line avail
      if r.1.isEmpty then
        let o := loop_component_fuel stof fuel m r.2
        ⟨Event.log (Diag.checksumFailedOrEmpty r.1) :: o.events, o.bender_sensors, o.fault⟩
      else if validate_checksum_component r.1 then
        let p := process_line_component stof m r.1
        match p.fault with
        | some e =>
          ⟨Event.validate r.1 :: Event.process r.1 :: p.events, p.bender_sensors, some e⟩
        | none =>
          let o := loop_component_fuel stof fuel p.bender_sensors r.2
          ⟨Event.validate r.1 :: Event.process r.1 :: (p.events ++ o.events),
            o.bender_sensors, o.fault⟩
      else
        let o := loop_component_fuel stof fuel m r.2
        ⟨Event.validate r.1 :: Event.log (Diag.checksumFailedOrEmpty r.1) :: o.events,
          o.bender_sensors, o.fault⟩

/-- One call of `loop()` of the component implementation with the bytes `avail` available.
Every iteration reads at least one byte, so `avail.length` iterations reach the end of the
bytes (`loop_component_fuel_indep`). -/
def loop_component {F : Type} (stof : Str → Except Fault F) (m : Registry) (avail : Str) :
    Outcome F :=
  loop_component_fuel stof avail.length m avail

/-- Successive calls of `loop()` of the component implementation, one per chunk of available
bytes; after a fault nothing is executed. -/
def loops_component {F : Type} (stof : Str → Except Fault F) : Registry → List Str → Outcome F
  | m, [] => ⟨[], m, none⟩
  | m, chunk :: later =>
    let o1 := loop_component stof m chunk
    match o1.fault with
    | some _ => o1
    | none =>
      let o2 := loops_component stof o1.bender_sensors later
      ⟨o1.events ++ o2.events, o2.bender_sensors, o2.fault⟩

/-! ## An instance of `std::stof` for concrete evaluations -/

/-- The value a decimal spelling denotes, before it is rounded to a `float`:
`decimal neg mant exp10` is `± mant * 10 ^ exp10`. -/
inductive FloatText
  | decimal (neg : Bool) (mant : Nat) (exp10 : Int)
  | infinity (neg : Bool)
  | nan
  deriving DecidableEq, Repr

/-- The function `tolower` of the C locale. -/
def tolower (c : Byte) : Byte := if 65 ≤ c.val ∧ c.val ≤ 90 then Fin.ofNat (c.val + 32) else c

/-- `std::stof(str)` on the decimal spellings of `strtof` (leading white space, an optional
sign, digits with an optional point and an optional exponent, or `inf` / `nan`);
`std::invalid_argument` when no conversion can be made.  Hexadecimal spellings and the range
error of `float` are outside this instance; the theorems below hold for every `stof`, and
this one is only evaluated on plain inputs. -/
def stofDecimal (s : Str) : Except Fault FloatText :=
  let s1 := s.dropWhile isspace
  let neg := decide (s1.head? = some 45)
  let s2 := if s1.head? = some 45 ∨ s1.head? = some 43 then s1.tail else s1
  let low := (s2.take 3).map tolower
  if low = bytes "inf" then .ok (.infinity neg)
  else if low = bytes "nan" then .ok .nan
  else
    let ip := s2.takeWhile isdigit
    let r1 := s2.dropWhile isdigit
    let fp := if r1.head? = some 46 then r1.tail.takeWhile isdigit else []
    if ip.isEmpty ∧ fp.isEmpty then .error .invalid_argument
    else
      let r2 := if r1.head? = some 46 then r1.tail.dropWhile isdigit else r1
      let r3 := if r2.head? = some 101 ∨ r2.head? = some 69 then r2.tail else []
      let eneg := decide (r3.head? = some 45)
      let r4 := if r3.head? = some 45 ∨ r3.head? = some 43 then r3.tail else r3
      let eds := r4.takeWhile isdigit
      let e : Int := if eneg then -(digitsValue eds : Int) else (digitsValue eds : Int)
      .ok (.decimal neg (digitsValue (ip ++ fp)) (e - fp.length))

/-! ## The words of the specification, as definitions -/

/-- The sum of the unsigned byte values. -/
def byteSum (body : Str) : Nat := (body.map (fun b => b.val)).sum

/-- The two uppercase hexadecimal digits of `n`, read off the digit table. -/
def upperHex (n : Nat) : Str :=
  [(bytes "0123456789ABCDEF").getD (n / 16) 0, (bytes "0123456789ABCDEF").getD (n % 16) 0]

/-- The two lowercase hexadecimal digits of `n`. -/
def lowerHex (n : Nat) : Str :=
  [(bytes "0123456789abcdef").getD (n / 16) 0, (bytes "0123456789abcdef").getD (n % 16) 0]

/-- The validator as the specification words it: the line has a `*`, and the two characters
right after the first `*` are the checksum digits; what follows them is not looked at. -/
def validate_two_chars (line : Str) : Bool :=
  match find line STAR with
  | none => false
  | some i => decide ((line.drop (i + 1)).take 2 = upperHex (byteSum (line.take i) % 256))

/-- The candidate lines of the framer as the specification words them: the line-feed-terminated
segments of the input, in order, each with its carriage returns deleted, the empty ones
dropped. -/
def framerLines (input : Str) : List Str :=
  (((input.splitOn LF).dropLast).map (fun seg => seg.filter (fun c => c != CR))).filter
    (fun seg => !seg.isEmpty)

/-- The bytes after the last line feed, carriage returns deleted. -/
def framerRest (input : Str) : Str :=
  (((input.splitOn LF).getLast?).getD []).filter (fun c => c != CR)

/-- The tokens as the specification words them: the body split at every space, the empty
pieces dropped. -/
def wordsOf (body : Str) : List Str :=
  (body.splitOn SPACE).filter (fun t => !t.isEmpty)

/-- An uppercase hexadecimal digit, `0`-`9` or `A`-`F`. -/
def isUpperHexDigit (c : Byte) : Bool :=
  decide ((48 ≤ c.val ∧ c.val ≤ 57) ∨ (65 ≤ c.val ∧ c.val ≤ 70))

/-! ## Auxiliary definitions of the proofs -/

/-- No event of `es` is a call made by the loop. -/
def noCalls {F : Type} (es : List (Event F)) : Prop :=
  ∀ e ∈ es, (∃ s v, e = Event.publish s v) ∨ (∃ d, e = Event.log d)

/-- The framer alone: the candidate lines and the final buffer, from the buffer `buf`. -/
def frame : Str → Str → List Str × Str
  | buf, [] => ([], buf)
  | buf, c :: rest =>
    if c = LF then
      if buf.isEmpty then frame [] rest else (buf :: (frame [] rest).1, (frame [] rest).2)
    else if c ≠ CR then frame (buf ++ [c]) rest
    else frame buf rest

/-- The token list `parts` that `process_line` computes for `line`; a line without `*` has
none. -/
def lineTokens (line : Str) : List Str :=
  match find line STAR with
  | none => []
  | some asterisk => tokenize (substr line 0 asterisk)

/-- The log calls of an analog report with `n` readings, the first being reading `i`. -/
def analogLogs {F : Type} (parts : List Str) (i n : Nat) : List (Event F) :=
  (List.range' i n).map (fun j => Event.log (Diag.analogInput j (parts.getD (j + 2) [])))

/-- Words laid out on a line, each after one space and `n` more. -/
def spaced : List (Nat × Str) → Str
  | [] => []
  | (n, w) :: rest => List.replicate (n + 1) SPACE ++ w ++ spaced rest

/-! ## The checksum validator -/

variable {F : Type}

theorem find_eq_none {l : Str} {c : Byte} : find l c = none ↔ c ∉ l := by
  induction l with
  | nil => simp [find]
  | cons b rest ih =>
    by_cases h : b = c
    · simp [find, h]
    · simp [find, h, ih, Ne.symm h]

theorem find_eq_some {l : Str} {c : Byte} {i : Nat} :
    find l c = some i ↔ c ∉ l.take i ∧ l.drop i = c :: l.drop (i + 1) := by
  induction l generalizing i with
  | nil => simp [find]
  | cons b rest ih =>
    by_cases h : b = c
    · cases i with
      | zero => simp [find, h]
      | succ j => simp [find, h]
    · cases i with
      | zero => simp [find, h]
      | succ j => simp [find, h, ih, Ne.symm h]

theorem find_append_star {body t : Str} {c : Byte} (h : c ∉ body) :
    find (body ++ c :: t) c = some body.length := by
  induction body with
  | nil => simp [find]
  | cons b rest ih =>
    have hb : b ≠ c := by intro e; exact h (by simp [e])
    have hr : c ∉ rest := by intro e; exact h (by simp [e])
    simp [find, hb, ih hr]

theorem checksumLoop_acc (data : Str) (acc : Nat) :
    data.foldl (fun acc ch => (acc + ch.val) % 2 ^ 32) acc % 256 = (acc + byteSum data) % 256 := by
  induction data generalizing acc with
  | nil => simp [byteSum]
  | cons b rest ih =>
    simp only [List.foldl_cons, ih, byteSum, List.map_cons, List.sum_cons]
    omega

theorem checksumLoop_mod (data : Str) : checksumLoop data % 256 = byteSum data % 256 := by
  simpa using checksumLoop_acc data 0

theorem format02X_eq (n : Nat) (h : n < 256) : format02X n = upperHex n := by
  interval_cases n <;> rfl

theorem validate_checksum_iff_find (line : Str) :
    validate_checksum line = true ↔
      ∃ i, find line STAR = some i ∧ line.drop (i + 1) = upperHex (byteSum (line.take i) % 256) := by
  unfold validate_checksum
  cases hf : find line STAR with
  | none => simp
  | some i =>
    simp only [substr, substrFrom, List.drop_zero, decide_eq_true_eq, Option.some.injEq,
      exists_eq_left']
    rw [format02X_eq _ (Nat.mod_lt _ (by norm_num)), checksumLoop_mod]

theorem validate_checksum_append (body t : Str) (hb : STAR ∉ body) :
    validate_checksum (body ++ STAR :: t) = true ↔ t = upperHex (byteSum body % 256) := by
  rw [validate_checksum_iff_find]
  simp [find_append_star hb]

/-- C1, as amended: `validate_checksum` returns true exactly for the lines made of a body
without `*`, the `*`, and the two uppercase hexadecimal digits of the byte sum of the body
modulo 256, with nothing after them: the whole text after the first `*` is compared. -/
theorem validate_checksum_iff (line : Str) :
    validate_checksum line = true ↔
      ∃ body, STAR ∉ body ∧ line = body ++ STAR :: upperHex (byteSum body % 256) := by
  constructor
  · intro h
    obtain ⟨i, hf, hd⟩ := (validate_checksum_iff_find line).1 h
    obtain ⟨hn, hs⟩ := find_eq_some.1 hf
    refine ⟨line.take i, hn, ?_⟩
    rw [← hd, ← hs, List.take_append_drop]
  · rintro ⟨body, hb, rfl⟩
    exact (validate_checksum_append body _ hb).2 rfl

/-- C1, counterexample: on `A*41` followed by a space the two characters after the `*` are
the checksum digits of the body, so the validator of the claim accepts, and the code rejects;
the character after the digits did change the result. -/
theorem validate_checksum_trailing_counterexample :
    validate_checksum (bytes "A*41") = true ∧
    validate_two_chars (bytes "A*41 ") = true ∧
    validate_checksum (bytes "A*41 ") = false := by decide

theorem upperHex_length (n : Nat) : (upperHex n).length = 2 := rfl

/-- C2: for a body without `*` and a trailer `t` of at most two characters,
`body ++ "*" ++ t` validates exactly when `t` is the two uppercase hexadecimal digits of the
byte sum of the body modulo 256; so the round trip validates, a trailer of length 0 or 1 is
rejected, and so is a lowercase rendering that differs from the uppercase one.  The body
`BGF 0 1 100052 18496 184 6859 ` has checksum `BD`, accepts `*BD`, rejects `*BC` and `*B`. -/
theorem validate_checksum_roundtrip (body t : Str) (hb : STAR ∉ body) (_ht : t.length ≤ 2) :
    (validate_checksum (body ++ STAR :: t) = true ↔ t = upperHex (byteSum body % 256)) ∧
    validate_checksum (body ++ STAR :: upperHex (byteSum body % 256)) = true ∧
    (t.length < 2 → validate_checksum (body ++ STAR :: t) = false) ∧
    (lowerHex (byteSum body % 256) ≠ upperHex (byteSum body % 256) →
      validate_checksum (body ++ STAR :: lowerHex (byteSum body % 256)) = false) ∧
    (upperHex (byteSum (bytes "BGF 0 1 100052 18496 184 6859 ") % 256) = bytes "BD" ∧
      validate_checksum (bytes "BGF 0 1 100052 18496 184 6859 " ++ bytes "*BD") = true ∧
      validate_checksum (bytes "BGF 0 1 100052 18496 184 6859 " ++ bytes "*BC") = false ∧
      validate_checksum (bytes "BGF 0 1 100052 18496 184 6859 " ++ bytes "*B") = false) := by
  refine ⟨validate_checksum_append body t hb, (validate_checksum_append body _ hb).2 rfl, ?_, ?_,
    by decide⟩
  · intro hlt
    rw [Bool.eq_false_iff]
    intro h
    have := (validate_checksum_append body t hb).1 h
    rw [this, upperHex_length] at hlt
    omega
  · intro hne
    rw [Bool.eq_false_iff]
    intro h
    exact hne ((validate_checksum_append body _ hb).1 h)

/-- C2 at the body of the protocol example. -/
theorem validate_checksum_roundtrip_witness :
    STAR ∉ bytes "BGF 0 1 100052 18496 184 6859 " ∧ (bytes "BD").length ≤ 2 ∧
    validate_checksum (bytes "BGF 0 1 100052 18496 184 6859 " ++ STAR :: bytes "BD") = true :=
  ⟨by decide, by decide,
    ((validate_checksum_roundtrip (bytes "BGF 0 1 100052 18496 184 6859 ") (bytes "BD") (by decide) (by decide)).1).2
      (by decide)⟩

/-! ## The intake loop: one call per chunk -/

theorem loop_fault (stof : Str → Except Fault F) (st : Core) (bs : Str) (e : Fault)
    (h : st.fault = some e) : loop stof st bs = (st, []) := by
  cases bs with
  | nil => rfl
  | cons c rest => simp [loop, h]

theorem loop_cons (stof : Str → Except Fault F) (st : Core) (c : Byte) (rest : Str)
    (h : st.fault = none) :
    loop stof st (c :: rest) =
      ((loop stof (loopByte stof st c).1 rest).1,
        (loopByte stof st c).2 ++ (loop stof (loopByte stof st c).1 rest).2) := by
  simp [loop, h]

theorem loop_append (stof : Str → Except Fault F) (st : Core) (a b : Str) :
    loop stof st (a ++ b) =
      ((loop stof (loop stof st a).1 b).1, (loop stof st a).2 ++ (loop stof (loop stof st a).1 b).2) := by
  induction a generalizing st with
  | nil => simp [loop]
  | cons c rest ih =>
    cases h : st.fault with
    | some e => simp [loop_fault stof st _ e h]
    | none =>
      rw [List.cons_append, loop_cons stof st c _ h, loop_cons stof st c _ h, ih]
      simp

theorem loops_eq_loop (stof : Str → Except Fault F) (st : Core) (chunks : List Str) :
    loops stof st chunks = loop stof st chunks.flatten := by
  induction chunks generalizing st with
  | nil => simp [loops, loop]
  | cons c later ih => simp [loops, ih, loop_append]

/-- C3: two ways of splitting the same byte sequence into chunks, one call of `loop()` per
chunk, give the same lines handed to `process_line`, the same sink publications and the same
final line buffer (indeed the same final state and the same effects); one byte per call
gives what all bytes in one call give. -/
theorem chunk_independence (stof : Str → Except Fault F) (st : Core) (chunks₁ chunks₂ : List Str)
    (h : chunks₁.flatten = chunks₂.flatten) :
    processedLines (loops stof st chunks₁).2 = processedLines (loops stof st chunks₂).2 ∧
    publications (loops stof st chunks₁).2 = publications (loops stof st chunks₂).2 ∧
    (loops stof st chunks₁).1.line = (loops stof st chunks₂).1.line ∧
    loops stof st chunks₁ = loops stof st chunks₂ ∧
    loops stof st (chunks₁.flatten.map (fun b => [b])) = loop stof st chunks₁.flatten := by
  have e : loops stof st chunks₁ = loops stof st chunks₂ := by
    rw [loops_eq_loop, loops_eq_loop, h]
  refine ⟨by rw [e], by rw [e], by rw [e], e, ?_⟩
  rw [loops_eq_loop]
  congr 1
  induction chunks₁.flatten with
  | nil => rfl
  | cons b r ih => simp [ih]

/-- C3 on a status line delivered in two chunks and in one. -/
theorem chunk_independence_witness :
    [bytes "BGF 0 1 9", bytes " 9 9 5 *F0\n"].flatten = [bytes "BGF 0 1 9 9 9 5 *F0\n"].flatten ∧
    publications (loops stofDecimal (Core.start [(0, [10, 11])])
        [bytes "BGF 0 1 9", bytes " 9 9 5 *F0\n"]).2
      = [(10, Val.ofInt 1), (11, Val.ofFloat (FloatText.decimal false 5 0))] :=
  ⟨by decide,
    (chunk_independence stofDecimal (Core.start [(0, [10, 11])])
      [bytes "BGF 0 1 9", bytes " 9 9 5 *F0\n"] [bytes "BGF 0 1 9 9 9 5 *F0\n"] (by decide)).2.1.trans
      (by decide)⟩

/-! ## The effects of `process_line` -/

theorem noCalls_nil : noCalls ([] : List (Event F)) := by
  intro e he; cases he

theorem noCalls_cons_log (d : Diag) (es : List (Event F)) (h : noCalls es) :
    noCalls (Event.log d :: es) := by
  intro e he
  rcases List.mem_cons.1 he with rfl | he
  · exact Or.inr ⟨d, rfl⟩
  · exact h e he

theorem noCalls_cons_publish (s : SinkId) (v : Val F) (es : List (Event F)) (h : noCalls es) :
    noCalls (Event.publish s v :: es) := by
  intro e he
  rcases List.mem_cons.1 he with rfl | he
  · exact Or.inl ⟨s, v, rfl⟩
  · exact h e he

theorem noCalls_append (a b : List (Event F)) (ha : noCalls a) (hb : noCalls b) :
    noCalls (a ++ b) := by
  intro e he
  rcases List.mem_append.1 he with he | he
  · exact ha e he
  · exact hb e he

theorem noCalls_ainLoop (fuel i : Nat) (input_count : Int) (parts : List Str) :
    noCalls (ainLoop fuel i input_count parts : List (Event F) × Option Fault).1 := by
  induction fuel generalizing i with
  | zero => exact noCalls_nil
  | succ n ih =>
    unfold ainLoop
    split
    · split
      · exact noCalls_nil
      · exact noCalls_cons_log _ _ (ih _)
    · exact noCalls_nil

theorem noCalls_bgfBranch (stof : Str → Except Fault F) (m : Registry) (parts : List Str)
    (tail : List (Event F)) (ht : noCalls tail) : noCalls (bgfBranch stof m parts tail).events := by
  unfold bgfBranch
  repeat' split
  all_goals first
    | exact noCalls_nil
    | exact ht
    | exact noCalls_cons_publish _ _ _ noCalls_nil
    | exact noCalls_cons_publish _ _ _ (noCalls_cons_publish _ _ _ ht)

theorem noCalls_process_line (stof : Str → Except Fault F) (m : Registry) (line : Str) :
    noCalls (process_line stof m line).events := by
  unfold process_line
  split
  · exact noCalls_nil
  dsimp only
  split
  · exact noCalls_nil
  split
  · exact noCalls_nil
  split
  · exact noCalls_bgfBranch _ _ _ _ (noCalls_cons_log _ _ noCalls_nil)
  split
  · split
    · exact noCalls_nil
    split
    · exact noCalls_nil
    rename_i input_count _
    split
    · rename_i logged e heq
      have h2 := congrArg Prod.fst heq
      simp only at h2
      rw [← h2]
      exact noCalls_ainLoop _ _ _ _
    · rename_i logged heq
      have h2 := congrArg Prod.fst heq
      simp only at h2
      rw [← h2]
      exact noCalls_append _ _ (noCalls_ainLoop _ _ _ _) (noCalls_cons_log _ _ noCalls_nil)
  split
  · exact noCalls_cons_log _ _ (noCalls_cons_log _ _ noCalls_nil)
  · exact noCalls_cons_log _ _ (noCalls_cons_log _ _ noCalls_nil)

theorem validatedLines_of_noCalls (es : List (Event F)) (h : noCalls es) :
    validatedLines es = [] := by
  induction es with
  | nil => rfl
  | cons e rest ih =>
    have hr : noCalls rest := fun x hx => h x (List.mem_cons_of_mem _ hx)
    rcases h e (List.mem_cons_self _ _) with ⟨s, v, rfl⟩ | ⟨d, rfl⟩
    · simpa [validatedLines] using ih hr
    · simpa [validatedLines] using ih hr

theorem processedLines_of_noCalls (es : List (Event F)) (h : noCalls es) :
    processedLines es = [] := by
  induction es with
  | nil => rfl
  | cons e rest ih =>
    have hr : noCalls rest := fun x hx => h x (List.mem_cons_of_mem _ hx)
    rcases h e (List.mem_cons_self _ _) with ⟨s, v, rfl⟩ | ⟨d, rfl⟩
    · simpa [processedLines] using ih hr
    · simpa [processedLines] using ih hr

theorem validatedLines_append (a b : List (Event F)) :
    validatedLines (a ++ b) = validatedLines a ++ validatedLines b := by
  simp [validatedLines]

/-! ## The registry is only read -/

theorem Registry.count_pos {m : Registry} {k : Int} (h : Registry.count m k > 0) :
    ∃ v, m.lookup k = some v := by
  unfold Registry.count at h
  cases hl : m.lookup k with
  | none => simp [hl] at h
  | some v => exact ⟨v, rfl⟩

theorem Registry.count_of_lookup {m : Registry} {k : Int} {v : List SinkId}
    (h : m.lookup k = some v) : Registry.count m k = 1 := by
  simp [Registry.count, h]

theorem Registry.count_of_lookup_none {m : Registry} {k : Int}
    (h : m.lookup k = none) : Registry.count m k = 0 := by
  simp [Registry.count, h]

theorem Registry.index_of_lookup {m : Registry} {k : Int} {v : List SinkId}
    (h : m.lookup k = some v) : Registry.index m k = (v, m) := by
  simp [Registry.index, h]

theorem bgfBranch_registry (stof : Str → Except Fault F) (m : Registry) (parts : List Str)
    (tail : List (Event F)) : (bgfBranch stof m parts tail).bender_sensors = m := by
  unfold bgfBranch
  split
  · rfl
  split
  · rfl
  rename_i bender_id _
  split
  · rename_i hc
    obtain ⟨v, hv⟩ := Registry.count_pos hc
    simp only [Registry.index_of_lookup hv]
    repeat' split
    all_goals rfl
  · rfl

theorem process_line_registry (stof : Str → Except Fault F) (m : Registry) (line : Str) :
    (process_line stof m line).bender_sensors = m := by
  unfold process_line
  split
  · rfl
  dsimp only
  repeat' split
  all_goals first
    | rfl
    | exact bgfBranch_registry _ _ _ _

theorem process_line_component_registry (stof : Str → Except Fault F) (m : Registry) (line : Str) :
    (process_line_component stof m line).bender_sensors = m := by
  unfold process_line_component
  split
  · rfl
  dsimp only
  repeat' split
  all_goals first
    | rfl
    | exact bgfBranch_registry _ _ _ _

/-! ## The framer -/

theorem validatedLines_validate (l : Str) (es : List (Event F)) :
    validatedLines (Event.validate l :: es) = l :: validatedLines es := rfl

theorem validatedLines_process (l : Str) (es : List (Event F)) :
    validatedLines (Event.process l :: es) = validatedLines es := rfl

theorem validatedLines_log (d : Diag) (es : List (Event F)) :
    validatedLines (Event.log d :: es) = validatedLines es := rfl

theorem loopByte_LF (stof : Str → Except Fault F) (st : Core)
    (h : (loopByte stof st LF).1.fault = none) (h0 : st.fault = none) :
    (loopByte stof st LF).1 = { st with line := [] } ∧
    validatedLines (loopByte stof st LF).2 = if st.line.isEmpty then [] else [st.line] := by
  unfold loopByte at h ⊢
  simp only [↓reduceIte] at h ⊢
  split
  · exact ⟨rfl, rfl⟩
  · split
    · have hn := validatedLines_of_noCalls _ (noCalls_process_line stof st.bender_sensors st.line)
      have hr := process_line_registry stof st.bender_sensors st.line
      split
      · rename_i e he; simp [*] at h
      · simp only [validatedLines_validate, validatedLines_process, hn, hr, h0, and_self]
    · exact ⟨rfl, rfl⟩

theorem loopByte_other (stof : Str → Except Fault F) (st : Core) (c : Byte) (h : c ≠ LF) :
    loopByte stof st c = (if c ≠ CR then { st with line := st.line ++ [c] } else st, []) := by
  unfold loopByte
  simp only [h, ↓reduceIte]
  split <;> rfl

theorem loop_fault_mono (stof : Str → Except Fault F) (st : Core) (bs : Str)
    (h : (loop stof st bs).1.fault = none) : st.fault = none := by
  cases hf : st.fault with
  | none => rfl
  | some e => rw [loop_fault stof st bs e hf, hf] at h; exact h

theorem loop_frame (stof : Str → Except Fault F) (st : Core) (input : Str)
    (h : (loop stof st input).1.fault = none) :
    validatedLines (loop stof st input).2 = (frame st.line input).1 ∧
    (loop stof st input).1.line = (frame st.line input).2 ∧
    (loop stof st input).1.bender_sensors = st.bender_sensors := by
  induction input generalizing st with
  | nil => simp [loop, frame, validatedLines]
  | cons c rest ih =>
    have h0 := loop_fault_mono stof st _ h
    rw [loop_cons stof st c rest h0] at h ⊢
    simp only at h ⊢
    have h1 := loop_fault_mono stof _ _ h
    obtain ⟨i1, i2, i3⟩ := ih _ h
    by_cases hc : c = LF
    · subst hc
      obtain ⟨e1, e2⟩ := loopByte_LF stof st h1 h0
      rw [validatedLines_append, i1, i2, i3, e2, e1]
      simp only [frame, ↓reduceIte]
      split <;> simp
    · rw [validatedLines_append, i1, i2, i3, loopByte_other stof st c hc]
      simp only [frame, hc, ↓reduceIte]
      split <;> simp [validatedLines]

theorem splitOn_LF_cons (c : Byte) (rest : Str) :
    (c :: rest).splitOn LF =
      if c = LF then [] :: rest.splitOn LF else (rest.splitOn LF).modifyHead (List.cons c) := by
  unfold List.splitOn
  rw [List.splitOnP_cons]
  by_cases h : c = LF <;> simp [h]

theorem splitOn_LF_ne_nil (input : Str) : input.splitOn LF ≠ [] :=
  List.splitOnP_ne_nil _ _

theorem frame_eq (buf input : Str) (s : Str) (ss : List Str) (h : input.splitOn LF = s :: ss) :
    frame buf input =
      ((((buf ++ s.filter (fun c => c != CR)) :: ss.map (fun seg => seg.filter (fun c => c != CR))).dropLast).filter
          (fun seg => !seg.isEmpty),
        (((buf ++ s.filter (fun c => c != CR)) :: ss.map (fun seg => seg.filter (fun c => c != CR))).getLast?).getD []) := by
  induction input generalizing buf s ss with
  | nil =>
    simp at h
    obtain ⟨rfl, rfl⟩ := h
    simp [frame]
  | cons c rest ih =>
    rw [splitOn_LF_cons] at h
    obtain ⟨s1, ss1, h1⟩ := List.exists_cons_of_ne_nil (splitOn_LF_ne_nil rest)
    rw [h1] at h
    by_cases hc : c = LF
    · simp only [hc, ↓reduceIte, List.cons.injEq] at h
      obtain ⟨rfl, rfl⟩ := h
      subst hc
      simp only [frame, ↓reduceIte, ih [] s1 ss1 h1]
      cases buf with
      | nil => simp
      | cons b bs => simp
    · simp only [hc, ↓reduceIte, List.modifyHead_cons, List.cons.injEq] at h
      obtain ⟨rfl, rfl⟩ := h
      simp only [frame, hc, ↓reduceIte]
      by_cases hr : c = CR
      · subst hr
        simp [ih buf s1 ss1 h1]
      · simp [hr, ih (buf ++ [c]) s1 ss1 h1]

theorem frame_nil_eq (input : Str) :
    frame [] input = (framerLines input, framerRest input) := by
  obtain ⟨s, ss, h⟩ := List.exists_cons_of_ne_nil (splitOn_LF_ne_nil input)
  rw [frame_eq [] input s ss h]
  have e : ([] ++ s.filter (fun c => c != CR)) :: ss.map (fun seg => seg.filter (fun c => c != CR))
      = (s :: ss).map (fun seg => seg.filter (fun c => c != CR)) := rfl
  rw [e, ← List.map_dropLast, List.getLast?_map]
  unfold framerLines framerRest
  rw [h]
  cases (s :: ss).getLast? <;> rfl

theorem loopByte_LF_validated (stof : Str → Except Fault F) (st : Core) :
    validatedLines (loopByte stof st LF).2 = if st.line.isEmpty then [] else [st.line] := by
  unfold loopByte
  simp only [↓reduceIte]
  have hn := validatedLines_of_noCalls _ (noCalls_process_line stof st.bender_sensors st.line)
  repeat' split
  all_goals simp only [validatedLines_validate, validatedLines_process, validatedLines_log, hn]
  all_goals rfl

theorem loop_frame_prefix (stof : Str → Except Fault F) (st : Core) (input : Str)
    (h0 : st.fault = none) :
    validatedLines (loop stof st input).2 <+: (frame st.line input).1 := by
  induction input generalizing st with
  | nil => simp [loop, frame, validatedLines]
  | cons c rest ih =>
    rw [loop_cons stof st c rest h0, validatedLines_append]
    by_cases hc : c = LF
    · subst hc
      rw [loopByte_LF_validated]
      cases hf : (loopByte stof st LF).1.fault with
      | some e =>
        rw [loop_fault stof _ rest e hf]
        simp only [frame, ↓reduceIte]
        split
        · simp [validatedLines]
        · simp [validatedLines]
      | none =>
        have e1 := (loopByte_LF stof st hf h0).1
        have i1 := ih (loopByte stof st LF).1 hf
        rw [e1] at i1 ⊢
        simp only [frame, ↓reduceIte]
        split
        · simpa using i1
        · simpa [List.prefix_cons_inj] using i1
    · rw [loopByte_other stof st c hc]
      simp only [frame, hc, ↓reduceIte]
      split
      · simpa [validatedLines] using ih { st with line := st.line ++ [c] } h0
      · simpa [validatedLines] using ih st h0

theorem frame_clean (buf input : Str) (hb : CR ∉ buf ∧ LF ∉ buf) :
    ∀ l ∈ (frame buf input).1, CR ∉ l ∧ LF ∉ l := by
  induction input generalizing buf with
  | nil => simp [frame]
  | cons c rest ih =>
    simp only [frame]
    by_cases hc : c = LF
    · simp only [hc, ↓reduceIte]
      split
      · exact ih [] (by simp)
      · intro l hl
        rcases List.mem_cons.1 hl with rfl | hl
        · exact hb
        · exact ih [] (by simp) l hl
    · by_cases hr : c = CR
      · simp only [hc, hr, ↓reduceIte]
        simpa [hr] using ih buf hb
      · simp only [hc, ↓reduceIte, if_pos hr]
        refine ih (buf ++ [c]) ?_
        simp [hb.1, hb.2, Ne.symm hc, Ne.symm hr]

theorem frame_append_LF (buf pre : Str) : (frame buf (pre ++ [LF])).2 = [] := by
  induction pre generalizing buf with
  | nil =>
    simp only [List.nil_append, frame, ↓reduceIte]
    split <;> rfl
  | cons c rest ih =>
    simp only [List.cons_append, frame]
    repeat' split
    all_goals simp [ih]

/-! ## Lines that fail the checksum -/

theorem loop_noLF (stof : Str → Except Fault F) (st : Core) (bs : Str) (h0 : st.fault = none)
    (hlf : LF ∉ bs) :
    loop stof st bs = ({ st with line := st.line ++ bs.filter (fun c => c != CR) }, []) := by
  induction bs generalizing st with
  | nil => simp [loop]
  | cons c rest ih =>
    have hc : c ≠ LF := by intro e; exact hlf (by simp [e])
    have hr : LF ∉ rest := by intro e; exact hlf (by simp [e])
    rw [loop_cons stof st c rest h0, loopByte_other stof st c hc]
    by_cases hcr : c = CR
    · simp [hcr, ih st h0 hr]
    · simp [hcr, ih { st with line := st.line ++ [c] } h0 hr]

theorem validate_checksum_no_star (l : Str) (h : STAR ∉ l) : validate_checksum l = false := by
  simp [validate_checksum, find_eq_none.2 h]

/-- C4, as amended: for every byte sequence fed to the header loop from start-up, as long
as no call of `process_line` ends in a fault, the lines reaching `validate_checksum` are, in
input order, the non-empty line-feed-terminated segments of the input with the carriage
returns deleted and every other byte kept, and the bytes after the last line feed (carriage
returns deleted) are what the buffer holds; the buffer is empty after a line feed.  With or
without a fault the validated lines are an initial part of those segments, and none of them
is empty or contains a carriage return or a line feed. -/
theorem framer_contract (stof : Str → Except Fault F) (m : Registry) (input : Str) :
    ((loop stof (Core.start m) input).1.fault = none →
      validatedLines (loop stof (Core.start m) input).2 = framerLines input ∧
      (loop stof (Core.start m) input).1.line = framerRest input) ∧
    (∀ pre : Str, (loop stof (Core.start m) (pre ++ [LF])).1.fault = none →
      (loop stof (Core.start m) (pre ++ [LF])).1.line = []) ∧
    validatedLines (loop stof (Core.start m) input).2 <+: framerLines input ∧
    (∀ l ∈ validatedLines (loop stof (Core.start m) input).2, l ≠ [] ∧ CR ∉ l ∧ LF ∉ l) := by
  have hp := loop_frame_prefix stof (Core.start m) input rfl
  have hclean := frame_clean [] input (by simp)
  simp only [Core.start, frame_nil_eq] at hp hclean
  refine ⟨?_, ?_, hp, ?_⟩
  · intro h
    obtain ⟨h1, h2, _⟩ := loop_frame stof (Core.start m) input h
    simp only [Core.start, frame_nil_eq] at h1 h2
    exact ⟨h1, h2⟩
  · intro pre h
    obtain ⟨_, h2, _⟩ := loop_frame stof (Core.start m) (pre ++ [LF]) h
    rw [h2, frame_append_LF]
  · intro l hl
    have hm : l ∈ framerLines input := hp.subset hl
    refine ⟨?_, hclean l hm⟩
    have := (List.mem_filter.1 hm).2
    intro e
    simp [e] at this

/-- C4 on a stream with an empty line, carriage returns and an unterminated rest. -/
theorem framer_contract_witness :
    (loop stofDecimal (Core.start [(0, [10, 11])]) (bytes "A*41\r\n\nxy\n\rab")).1.fault = none ∧
    validatedLines (loop stofDecimal (Core.start [(0, [10, 11])]) (bytes "A*41\r\n\nxy\n\rab")).2
      = [bytes "A*41", bytes "xy"] ∧
    (loop stofDecimal (Core.start [(0, [10, 11])]) (bytes "A*41\r\n\nxy\n\rab")).1.line = bytes "ab" :=
  ⟨by decide,
    ((framer_contract stofDecimal [(0, [10, 11])] (bytes "A*41\r\n\nxy\n\rab")).1 (by decide)).1.trans
      (by decide),
    ((framer_contract stofDecimal [(0, [10, 11])] (bytes "A*41\r\n\nxy\n\rab")).1 (by decide)).2.trans
      (by decide)⟩

/-- C4, counterexample: the first line passes the checksum and has the unit id `x`, on
which `std::stoi` throws; nothing catches the exception, so the second segment `A*41` never
reaches `validate_checksum`, and the buffer still holds the first line. -/
theorem framer_fault_counterexample :
    validatedLines (loop stofDecimal (Core.start []) (bytes "BGF x 1 1 1 1 1*FC\nA*41\n")).2
      = [bytes "BGF x 1 1 1 1 1*FC"] ∧
    framerLines (bytes "BGF x 1 1 1 1 1*FC\nA*41\n") = [bytes "BGF x 1 1 1 1 1*FC", bytes "A*41"] ∧
    (loop stofDecimal (Core.start []) (bytes "BGF x 1 1 1 1 1*FC\nA*41\n")).1
      = { line := bytes "BGF x 1 1 1 1 1*FC", bender_sensors := [],
          fault := some Fault.invalid_argument } := by
  decide

/-- C7: at a line boundary, a non-empty line (its bytes `bs`, carriage returns aside) that
fails `validate_checksum`, which a line without `*` always does, is discarded at its line
feed: `process_line` is not called, nothing is published, the one log call is the diagnostic
with the line, the buffer is empty again and the registry is as before; the bytes that follow
are processed exactly as from the state before the line. -/
theorem checksum_failure_discarded (stof : Str → Except Fault F) (st : Core) (bs rest : Str)
    (h0 : st.fault = none) (hline : st.line = []) (hlf : LF ∉ bs)
    (hne : bs.filter (fun c => c != CR) ≠ [])
    (hbad : validate_checksum (bs.filter (fun c => c != CR)) = false) :
    loop stof st (bs ++ [LF]) =
      (st, [Event.validate (bs.filter (fun c => c != CR)),
            Event.log (Diag.checksumFailedOrEmpty (bs.filter (fun c => c != CR)))]) ∧
    processedLines (loop stof st (bs ++ [LF])).2 = [] ∧
    publications (loop stof st (bs ++ [LF])).2 = [] ∧
    diagnostics (loop stof st (bs ++ [LF])).2 =
      [Diag.checksumFailedOrEmpty (bs.filter (fun c => c != CR))] ∧
    (loop stof st (bs ++ [LF])).1.line = [] ∧
    loop stof st (bs ++ LF :: rest) =
      ((loop stof st rest).1,
        Event.validate (bs.filter (fun c => c != CR)) ::
          Event.log (Diag.checksumFailedOrEmpty (bs.filter (fun c => c != CR))) ::
            (loop stof st rest).2) ∧
    (∀ l : Str, STAR ∉ l → validate_checksum l = false) := by
  have key : loop stof st (bs ++ [LF]) =
      (st, [Event.validate (bs.filter (fun c => c != CR)),
            Event.log (Diag.checksumFailedOrEmpty (bs.filter (fun c => c != CR)))]) := by
    rw [loop_append, loop_noLF stof st bs h0 hlf]
    simp only [hline, List.nil_append]
    rw [loop_cons stof { st with line := bs.filter (fun c => c != CR) } LF [] h0]
    have hne2 : (bs.filter (fun c => c != CR)).isEmpty = false := by
      cases hq : bs.filter (fun c => c != CR) with
      | nil => exact absurd hq hne
      | cons a b => rfl
    simp only [loopByte, ↓reduceIte, hne2, hbad, loop, Bool.false_eq_true, List.append_nil,
      List.nil_append]
    cases st
    simp_all
  refine ⟨key, by rw [key]; rfl, by rw [key]; rfl, by rw [key]; rfl, by rw [key]; exact hline,
    ?_, validate_checksum_no_star⟩
  have : bs ++ LF :: rest = (bs ++ [LF]) ++ rest := by simp
  rw [this, loop_append, key]
  rfl

/-- C7 on the line `A*42` (the checksum of `A` is `41`), followed by a valid line. -/
theorem checksum_failure_discarded_witness :
    loop stofDecimal (Core.start []) (bytes "A*42\r" ++ LF :: bytes "A*41\n") =
      ((loop stofDecimal (Core.start []) (bytes "A*41\n")).1,
        Event.validate (bytes "A*42") :: Event.log (Diag.checksumFailedOrEmpty (bytes "A*42")) ::
          (loop stofDecimal (Core.start []) (bytes "A*41\n")).2) :=
  (checksum_failure_discarded stofDecimal (Core.start []) (bytes "A*42\r") (bytes "A*41\n")
    rfl rfl (by decide) (by decide) (by decide)).2.2.2.2.2.1

/-! ## The status branch -/

theorem vget_of_getElem? {α : Type} {v : List α} {i : Nat} {a : α} (h : v[i]? = some a) :
    vget v i = .ok a := by
  simp [vget, h]

theorem process_line_bgf (stof : Str → Except Fault F) (m : Registry) (line : Str)
    (h0 : (lineTokens line)[0]? = some (bytes "BGF")) (h7 : 7 ≤ (lineTokens line).length) :
    process_line stof m line = bgfBranch stof m (lineTokens line) [Event.log Diag.processingTime] := by
  unfold lineTokens at h0 h7 ⊢
  unfold process_line
  cases hf : find line STAR with
  | none => simp [hf] at h0
  | some a =>
    simp only [hf] at h0 h7 ⊢
    have hne : (tokenize (substr line 0 a)).isEmpty = false := by
      cases hq : tokenize (substr line 0 a) with
      | nil => simp [hq] at h0
      | cons x y => rfl
    simp [hne, vget_of_getElem? h0, h7]

theorem process_line_component_bgf (stof : Str → Except Fault F) (m : Registry) (line : Str)
    (h0 : (lineTokens line)[0]? = some (bytes "BGF")) (h7 : 7 ≤ (lineTokens line).length) :
    process_line_component stof m line = bgfBranch stof m (lineTokens line) [] := by
  unfold lineTokens at h0 h7 ⊢
  unfold process_line_component
  cases hf : find line STAR with
  | none => simp [hf] at h0
  | some a =>
    simp only [hf] at h0 h7 ⊢
    have hne : (tokenize (substr line 0 a)).isEmpty = false := by
      cases hq : tokenize (substr line 0 a) with
      | nil => simp [hq] at h0
      | cons x y => rfl
    simp [hne, vget_of_getElem? h0, h7]

theorem bgfBranch_bad_id (stof : Str → Except Fault F) (m : Registry) (parts : List Str)
    (tail : List (Event F)) (t1 : Str) (e : Fault)
    (h1 : parts[1]? = some t1) (he : stoi t1 = .error e) :
    bgfBranch stof m parts tail = ⟨[], m, some e⟩ := by
  simp [bgfBranch, vget_of_getElem? h1, he]

theorem bgfBranch_unregistered (stof : Str → Except Fault F) (m : Registry) (parts : List Str)
    (tail : List (Event F)) (t1 : Str) (unit : Int)
    (h1 : parts[1]? = some t1) (hu : stoi t1 = .ok unit) (hl : m.lookup unit = none) :
    bgfBranch stof m parts tail = ⟨tail, m, none⟩ := by
  simp [bgfBranch, vget_of_getElem? h1, hu, Registry.count_of_lookup_none hl]

theorem bgfBranch_bad_status (stof : Str → Except Fault F) (m : Registry) (parts : List Str)
    (tail : List (Event F)) (t1 t2 : Str) (unit : Int) (sinks : List SinkId) (s0 : SinkId)
    (e : Fault)
    (h1 : parts[1]? = some t1) (hu : stoi t1 = .ok unit) (hl : m.lookup unit = some sinks)
    (hs0 : sinks[0]? = some s0) (h2 : parts[2]? = some t2) (he : stoi t2 = .error e) :
    bgfBranch stof m parts tail = ⟨[], m, some e⟩ := by
  simp [bgfBranch, vget_of_getElem? h1, hu, Registry.count_of_lookup hl,
    Registry.index_of_lookup hl, vget_of_getElem? hs0, vget_of_getElem? h2, he]

theorem bgfBranch_bad_resistance (stof : Str → Except Fault F) (m : Registry) (parts : List Str)
    (tail : List (Event F)) (t1 t2 t6 : Str) (unit status : Int) (sinks : List SinkId)
    (s0 s1 : SinkId) (e : Fault)
    (h1 : parts[1]? = some t1) (hu : stoi t1 = .ok unit) (hl : m.lookup unit = some sinks)
    (hs0 : sinks[0]? = some s0) (h2 : parts[2]? = some t2) (hst : stoi t2 = .ok status)
    (hs1 : sinks[1]? = some s1) (h6 : parts[6]? = some t6) (he : stof t6 = .error e) :
    bgfBranch stof m parts tail = ⟨[Event.publish s0 (Val.ofInt status)], m, some e⟩ := by
  simp [bgfBranch, vget_of_getElem? h1, hu, Registry.count_of_lookup hl,
    Registry.index_of_lookup hl, vget_of_getElem? hs0, vget_of_getElem? h2, hst,
    vget_of_getElem? hs1, vget_of_getElem? h6, he]

theorem bgfBranch_publish (stof : Str → Except Fault F) (m : Registry) (parts : List Str)
    (tail : List (Event F)) (t1 t2 t6 : Str) (unit status : Int) (r : F) (sinks : List SinkId)
    (s0 s1 : SinkId)
    (h1 : parts[1]? = some t1) (hu : stoi t1 = .ok unit) (hl : m.lookup unit = some sinks)
    (hs0 : sinks[0]? = some s0) (h2 : parts[2]? = some t2) (hst : stoi t2 = .ok status)
    (hs1 : sinks[1]? = some s1) (h6 : parts[6]? = some t6) (hr : stof t6 = .ok r) :
    bgfBranch stof m parts tail =
      ⟨Event.publish s0 (Val.ofInt status) :: Event.publish s1 (Val.ofFloat r) :: tail, m, none⟩ := by
  simp [bgfBranch, vget_of_getElem? h1, hu, Registry.count_of_lookup hl,
    Registry.index_of_lookup hl, vget_of_getElem? hs0, vget_of_getElem? h2, hst,
    vget_of_getElem? hs1, vget_of_getElem? h6, hr]

theorem bgfBranch_congr (stof : Str → Except Fault F) (m : Registry) (parts parts' : List Str)
    (tail : List (Event F)) (h1 : parts[1]? = parts'[1]?) (h2 : parts[2]? = parts'[2]?)
    (h6 : parts[6]? = parts'[6]?) :
    bgfBranch stof m parts tail = bgfBranch stof m parts' tail := by
  simp only [bgfBranch, vget, h1, h2, h6]

/-- C5: a line whose tokens start with `BGF`, number at least 7, have tokens 1 and 2 accepted
by `std::stoi` and token 6 accepted by `std::stof`, and whose unit id is registered with a
status sink (entry 0) and a resistance sink (entry 1): `process_line` publishes the integer
of token 2 to entry 0, then the number of token 6 to entry 1, nothing else, and returns
normally with the registry as it was. -/
theorem status_publish (stof : Str → Except Fault F) (m : Registry) (line t1 t2 t6 : Str)
    (unit status : Int) (r : F) (sinks : List SinkId) (s0 s1 : SinkId)
    (h0 : (lineTokens line)[0]? = some (bytes "BGF")) (h7 : 7 ≤ (lineTokens line).length)
    (h1 : (lineTokens line)[1]? = some t1) (hu : stoi t1 = .ok unit)
    (h2 : (lineTokens line)[2]? = some t2) (hst : stoi t2 = .ok status)
    (h6 : (lineTokens line)[6]? = some t6) (hr : stof t6 = .ok r)
    (hl : m.lookup unit = some sinks) (hs0 : sinks[0]? = some s0) (hs1 : sinks[1]? = some s1) :
    process_line stof m line =
      ⟨[Event.publish s0 (Val.ofInt status), Event.publish s1 (Val.ofFloat r),
        Event.log Diag.processingTime], m, none⟩ ∧
    publications (process_line stof m line).events =
      [(s0, Val.ofInt status), (s1, Val.ofFloat r)] := by
  have key := process_line_bgf stof m line h0 h7
  rw [bgfBranch_publish stof m _ _ t1 t2 t6 unit status r sinks s0 s1 h1 hu hl hs0 h2 hst hs1 h6 hr]
    at key
  rw [key]
  exact ⟨rfl, rfl⟩

/-- C5 on the status line of the protocol example, unit 0 registered with the sinks 10
and 11 (unit 1 with 12 and 13): status 1 goes to sink 10, resistance 6859 to sink 11. -/
theorem status_publish_witness :
    validate_checksum (bytes "BGF 0 1 100052 18496 184 6859 *BD") = true ∧
    lineTokens (bytes "BGF 0 1 100052 18496 184 6859 *BD") =
      [bytes "BGF", bytes "0", bytes "1", bytes "100052", bytes "18496", bytes "184",
        bytes "6859"] ∧
    publications (process_line stofDecimal [(0, [10, 11]), (1, [12, 13])]
        (bytes "BGF 0 1 100052 18496 184 6859 *BD")).events =
      [(10, Val.ofInt 1), (11, Val.ofFloat (FloatText.decimal false 6859 0))] :=
  ⟨by decide, by decide,
    (status_publish stofDecimal [(0, [10, 11]), (1, [12, 13])]
      (bytes "BGF 0 1 100052 18496 184 6859 *BD") (bytes "0") (bytes "1") (bytes "6859")
      0 1 (FloatText.decimal false 6859 0) [10, 11] 10 11
      (by decide) (by decide) (by decide) (by decide) (by decide) (by decide) (by decide)
      (by decide) (by decide) (by decide) (by decide)).2⟩

/-- C8: `process_line`, in the header and in the component implementation, returns the
registry it was given, for every line; on a line whose tokens start with `BGF`, number at
least 7 and have a unit id that `std::stoi` accepts and that is not a key of the registry, it
returns normally and publishes nothing (the header logs the processing time, the component
does nothing at all). -/
theorem unregistered_unit_no_change (stof : Str → Except Fault F) (m : Registry) (line : Str) :
    (process_line stof m line).bender_sensors = m ∧
    (process_line_component stof m line).bender_sensors = m ∧
    (∀ (t1 : Str) (unit : Int), (lineTokens line)[0]? = some (bytes "BGF") →
      7 ≤ (lineTokens line).length → (lineTokens line)[1]? = some t1 → stoi t1 = .ok unit →
      m.lookup unit = none →
        process_line stof m line = ⟨[Event.log Diag.processingTime], m, none⟩ ∧
        process_line_component stof m line = ⟨[], m, none⟩ ∧
        publications (process_line stof m line).events = [] ∧
        publications (process_line_component stof m line).events = []) := by
  refine ⟨process_line_registry stof m line, process_line_component_registry stof m line, ?_⟩
  intro t1 unit h0 h7 h1 hu hl
  have k1 := process_line_bgf stof m line h0 h7
  have k2 := process_line_component_bgf stof m line h0 h7
  rw [bgfBranch_unregistered stof m _ _ t1 unit h1 hu hl] at k1 k2
  rw [k1, k2]
  exact ⟨rfl, rfl, rfl, rfl⟩

/-- C8 on a status line for unit 9 with only unit 0 registered. -/
theorem unregistered_unit_no_change_witness :
    process_line stofDecimal [(0, [10, 11])] (bytes "BGF 9 1 100052 18496 184 6859 *C6") =
      ⟨[Event.log Diag.processingTime], [(0, [10, 11])], none⟩ :=
  ((unregistered_unit_no_change stofDecimal [(0, [10, 11])]
      (bytes "BGF 9 1 100052 18496 184 6859 *C6")).2.2 (bytes "9") 9
    (by decide) (by decide) (by decide) (by decide) (by decide)).1

/-! ## Fields the library does not accept -/

theorem takeWhile_isdigit_nil (s : Str) (h : ∀ c ∈ s, isdigit c = false) :
    s.takeWhile isdigit = [] := by
  cases s with
  | nil => rfl
  | cons c rest => simp [List.takeWhile, h c (List.mem_cons_self _ _)]

theorem stoi_no_digit (t : Str) (h : ∀ c ∈ t, isdigit c = false) :
    stoi t = .error .invalid_argument := by
  have h1 : ∀ c ∈ t.dropWhile isspace, isdigit c = false :=
    fun c hc => h c ((List.dropWhile_sublist _).subset hc)
  have h2 : ∀ c ∈ (t.dropWhile isspace).tail, isdigit c = false :=
    fun c hc => h1 c (List.mem_of_mem_tail hc)
  unfold stoi
  simp only
  split
  · rw [takeWhile_isdigit_nil _ h2]; rfl
  · rw [takeWhile_isdigit_nil _ h1]; rfl

theorem loopByte_LF_fault (stof : Str → Except Fault F) (st : Core) (e : Fault)
    (hne : st.line ≠ []) (hv : validate_checksum st.line = true)
    (hf : (process_line stof st.bender_sensors st.line).fault = some e) :
    loopByte stof st LF =
      ({ line := st.line, bender_sensors := st.bender_sensors, fault := some e },
        Event.validate st.line :: Event.process st.line ::
          (process_line stof st.bender_sensors st.line).events) := by
  have hne2 : st.line.isEmpty = false := by
    cases hq : st.line with
    | nil => exact absurd hq hne
    | cons a b => rfl
  simp [loopByte, hne2, hv, hf, process_line_registry]

/-- C6, as amended: on a line whose tokens start with `BGF` and number at least 7, a field
that the library does not accept is not recovered from.  A unit id refused by `std::stoi`
(as every text without a digit is) makes `process_line` raise the exception with nothing
published and nothing logged; so does a refused status when the unit is registered; a
resistance refused by `std::stof` raises the exception after the status has been published.
The timing tokens 3 to 5 are never parsed: lines that agree on tokens 1, 2 and 6 have the
same outcome.  Nothing catches the exception: the loop stops at that line, which stays in
the buffer, and the bytes after it are not processed. -/
theorem field_parse_error_faults (stof : Str → Except Fault F) (m : Registry)
    (line t1 t2 t6 : Str)
    (h0 : (lineTokens line)[0]? = some (bytes "BGF")) (h7 : 7 ≤ (lineTokens line).length)
    (h1 : (lineTokens line)[1]? = some t1) (h2 : (lineTokens line)[2]? = some t2)
    (h6 : (lineTokens line)[6]? = some t6) :
    (∀ e, stoi t1 = .error e → process_line stof m line = ⟨[], m, some e⟩) ∧
    (∀ unit sinks s0 e, stoi t1 = .ok unit → m.lookup unit = some sinks → sinks[0]? = some s0 →
      stoi t2 = .error e → process_line stof m line = ⟨[], m, some e⟩) ∧
    (∀ unit sinks s0 s1 status e, stoi t1 = .ok unit → m.lookup unit = some sinks →
      sinks[0]? = some s0 → stoi t2 = .ok status → sinks[1]? = some s1 → stof t6 = .error e →
      process_line stof m line = ⟨[Event.publish s0 (Val.ofInt status)], m, some e⟩) ∧
    (∀ t : Str, (∀ c ∈ t, isdigit c = false) → stoi t = .error .invalid_argument) ∧
    (∀ line' : Str, (lineTokens line')[0]? = some (bytes "BGF") → 7 ≤ (lineTokens line').length →
      (lineTokens line')[1]? = some t1 → (lineTokens line')[2]? = some t2 →
      (lineTokens line')[6]? = some t6 → process_line stof m line' = process_line stof m line) ∧
    (∀ (e : Fault) (rest : Str), validate_checksum line = true →
      (process_line stof m line).fault = some e →
      loop stof { line := line, bender_sensors := m, fault := none } (LF :: rest) =
        ({ line := line, bender_sensors := m, fault := some e },
          Event.validate line :: Event.process line :: (process_line stof m line).events)) := by
  have key := process_line_bgf stof m line h0 h7
  refine ⟨?_, ?_, ?_, stoi_no_digit, ?_, ?_⟩
  · intro e he
    rw [key, bgfBranch_bad_id stof m _ _ t1 e h1 he]
  · intro unit sinks s0 e hu hl hs0 he
    rw [key, bgfBranch_bad_status stof m _ _ t1 t2 unit sinks s0 e h1 hu hl hs0 h2 he]
  · intro unit sinks s0 s1 status e hu hl hs0 hst hs1 he
    rw [key, bgfBranch_bad_resistance stof m _ _ t1 t2 t6 unit status sinks s0 s1 e h1 hu hl hs0
      h2 hst hs1 h6 he]
  · intro line' g0 g7 g1 g2 g6
    rw [key, process_line_bgf stof m line' g0 g7]
    exact bgfBranch_congr stof m _ _ _ (g1.trans h1.symm) (g2.trans h2.symm) (g6.trans h6.symm)
  · intro e rest hv hf
    have hne : line ≠ [] := by
      intro hq
      rw [hq] at h7
      simp [lineTokens, find] at h7
    rw [loop_cons stof _ LF rest rfl,
      loopByte_LF_fault stof { line := line, bender_sensors := m, fault := none } e hne hv hf,
      loop_fault stof _ rest e rfl]
    simp

/-- C6 on a status line whose resistance is the text `x`, unit 0 registered: the status 1 is
published to sink 10, then `std::invalid_argument` leaves `process_line`. -/
theorem field_parse_error_faults_witness :
    lineTokens (bytes "BGF 0 1 1 1 1 x*FB") =
      [bytes "BGF", bytes "0", bytes "1", bytes "1", bytes "1", bytes "1", bytes "x"] ∧
    process_line stofDecimal [(0, [10, 11])] (bytes "BGF 0 1 1 1 1 x*FB") =
      ⟨[Event.publish 10 (Val.ofInt 1)], [(0, [10, 11])], some Fault.invalid_argument⟩ :=
  ⟨by decide,
    (field_parse_error_faults stofDecimal [(0, [10, 11])] (bytes "BGF 0 1 1 1 1 x*FB")
      (bytes "0") (bytes "1") (bytes "x") (by decide) (by decide) (by decide) (by decide)
      (by decide)).2.2.1 0 [10, 11] 10 11 1 Fault.invalid_argument
      (by decide) (by decide) (by decide) (by decide) (by decide) (by decide)⟩

/-- C6, counterexample: the validated status line `BGF 0 1 1 1 1 x*FB` (resistance `x`) with
unit 0 registered ends `process_line` with `std::invalid_argument` after the status has been
published and without any log call, and the valid line that follows it in the stream is
neither validated nor processed; the validated line `BGF 0 1 a b c 5 *6B`, whose timing
fields are not numbers, is published in full. -/
theorem field_parse_error_counterexample :
    validate_checksum (bytes "BGF 0 1 1 1 1 x*FB") = true ∧
    process_line stofDecimal [(0, [10, 11])] (bytes "BGF 0 1 1 1 1 x*FB") =
      ⟨[Event.publish 10 (Val.ofInt 1)], [(0, [10, 11])], some Fault.invalid_argument⟩ ∧
    loop stofDecimal (Core.start [(0, [10, 11])])
        (bytes "BGF 0 1 1 1 1 x*FB\nBGF 0 1 9 9 9 5 *F0\n") =
      ({ line := bytes "BGF 0 1 1 1 1 x*FB", bender_sensors := [(0, [10, 11])],
         fault := some Fault.invalid_argument },
        [Event.validate (bytes "BGF 0 1 1 1 1 x*FB"), Event.process (bytes "BGF 0 1 1 1 1 x*FB"),
          Event.publish 10 (Val.ofInt 1)]) ∧
    validate_checksum (bytes "BGF 0 1 a b c 5 *6B") = true ∧
    process_line stofDecimal [(0, [10, 11])] (bytes "BGF 0 1 a b c 5 *6B") =
      ⟨[Event.publish 10 (Val.ofInt 1), Event.publish 11 (Val.ofFloat (FloatText.decimal false 5 0)),
        Event.log Diag.processingTime], [(0, [10, 11])], none⟩ := by
  decide

/-! ## The analog branch -/

theorem ainLoop_eq (fuel i : Nat) (input_count : Int) (parts : List Str)
    (hi : i ≤ min (max input_count 0).toNat (parts.length - 2))
    (hf : min (max input_count 0).toNat (parts.length - 2) - i ≤ fuel) :
    (ainLoop fuel i input_count parts : List (Event F) × Option Fault) =
      (analogLogs parts i (min (max input_count 0).toNat (parts.length - 2) - i), none) := by
  induction fuel generalizing i with
  | zero =>
    have : min (max input_count 0).toNat (parts.length - 2) - i = 0 := by omega
    rw [this]
    rfl
  | succ n ih =>
    unfold ainLoop
    by_cases hc : (i : Int) < input_count ∧ i + 2 < parts.length
    · rw [if_pos hc]
      have hlt : i < min (max input_count 0).toNat (parts.length - 2) := by omega
      have hg : parts[i + 2]? = some (parts.getD (i + 2) []) := by
        rw [List.getD_eq_getElem?_getD, List.getElem?_eq_getElem hc.2]
        rfl
      rw [vget_of_getElem? hg]
      simp only
      rw [ih (i + 1) (by omega) (by omega)]
      have hk : min (max input_count 0).toNat (parts.length - 2) - i =
          (min (max input_count 0).toNat (parts.length - 2) - (i + 1)) + 1 := by omega
      rw [hk]
      simp [analogLogs, List.range']
    · rw [if_neg hc]
      have : min (max input_count 0).toNat (parts.length - 2) - i = 0 := by omega
      rw [this]
      rfl

/-- C10: a line whose tokens start with `AIN`, number at least 2 and have a count accepted by
`std::stoi`: `process_line` logs exactly `min (max count 0) (tokens - 2)` readings, the tokens
2, 3, ... in order under the indices 0, 1, ..., then the processing time; it returns normally
also when the line has fewer readings than the count, publishes nothing and leaves the
registry. -/
theorem analog_report (stof : Str → Except Fault F) (m : Registry) (line t1 : Str) (count : Int)
    (h0 : (lineTokens line)[0]? = some (bytes "AIN")) (h2 : 2 ≤ (lineTokens line).length)
    (h1 : (lineTokens line)[1]? = some t1) (hc : stoi t1 = .ok count) :
    process_line stof m line =
      ⟨(List.range (min (max count 0).toNat ((lineTokens line).length - 2))).map
          (fun i => Event.log (Diag.analogInput i ((lineTokens line).getD (i + 2) []))) ++
        [Event.log Diag.processingTime], m, none⟩ ∧
    publications (process_line stof m line).events = [] := by
  have key : process_line stof m line =
      ⟨(List.range (min (max count 0).toNat ((lineTokens line).length - 2))).map
          (fun i => Event.log (Diag.analogInput i ((lineTokens line).getD (i + 2) []))) ++
        [Event.log Diag.processingTime], m, none⟩ := by
    unfold lineTokens at h0 h2 h1 ⊢
    unfold process_line
    cases hf : find line STAR with
    | none => simp [hf] at h0
    | some a =>
      simp only [hf] at h0 h2 h1 ⊢
      have hne : (tokenize (substr line 0 a)).isEmpty = false := by
        cases hq : tokenize (substr line 0 a) with
        | nil => simp [hq] at h0
        | cons x y => rfl
      have hA : ¬ (bytes "AIN" = bytes "BGF" ∧ (tokenize (substr line 0 a)).length ≥ 7) := by
        intro hh
        exact absurd hh.1 (by decide)
      simp only [hne, Bool.false_eq_true, ↓reduceIte, vget_of_getElem? h0, hA, h2,
        vget_of_getElem? h1, hc, ge_iff_le, and_self]
      rw [ainLoop_eq _ 0 count _ (by omega) (by omega)]
      simp [analogLogs, List.range_eq_range']
  refine ⟨key, ?_⟩
  rw [key]
  simp [publications, List.filterMap_append]

/-- C10 on the analog line of the protocol example (four readings `0`) and on a line that
declares four readings and carries two. -/
theorem analog_report_witness :
    process_line stofDecimal [(0, [10, 11])] (bytes "AIN 4 0 0 0 0 *8C") =
      ⟨[Event.log (Diag.analogInput 0 (bytes "0")), Event.log (Diag.analogInput 1 (bytes "0")),
        Event.log (Diag.analogInput 2 (bytes "0")), Event.log (Diag.analogInput 3 (bytes "0")),
        Event.log Diag.processingTime], [(0, [10, 11])], none⟩ ∧
    process_line stofDecimal [(0, [10, 11])] (bytes "AIN 4 7 8 *FB") =
      ⟨[Event.log (Diag.analogInput 0 (bytes "7")), Event.log (Diag.analogInput 1 (bytes "8")),
        Event.log Diag.processingTime], [(0, [10, 11])], none⟩ :=
  ⟨(analog_report stofDecimal [(0, [10, 11])] (bytes "AIN 4 0 0 0 0 *8C") (bytes "4") 4
      (by decide) (by decide) (by decide) (by decide)).1.trans (by decide),
    (analog_report stofDecimal [(0, [10, 11])] (bytes "AIN 4 7 8 *FB") (bytes "4") 4
      (by decide) (by decide) (by decide) (by decide)).1.trans (by decide)⟩

/-! ## The tokenizer -/

theorem getline_length (ss item rest : Str) (delim : Byte)
    (h : getline ss delim = some (item, rest)) : rest.length < ss.length := by
  cases ss with
  | nil => simp [getline] at h
  | cons c r =>
    simp only [getline, Option.some.injEq, Prod.mk.injEq] at h
    rw [← h.2, List.length_drop]
    have := (List.dropWhile_sublist (fun x => x != delim) (l := c :: r)).length_le
    simp only [List.length_cons] at this ⊢
    omega

theorem tokenLoop_fuel_indep (fuel fuel' : Nat) (ss : Str) (parts : List Str)
    (h : ss.length < fuel) (h' : ss.length < fuel') :
    tokenLoop fuel ss parts = tokenLoop fuel' ss parts := by
  induction fuel generalizing fuel' ss parts with
  | zero => omega
  | succ n ih =>
    cases fuel' with
    | zero => omega
    | succ n' =>
      unfold tokenLoop
      cases hg : getline ss SPACE with
      | none => rfl
      | some p =>
        obtain ⟨item, rest⟩ := p
        have hl := getline_length ss item rest SPACE hg
        exact ih n' rest _ (by omega) (by omega)

/-- The loop of the tokenizer has ended by itself within `data.length + 1` iterations: more
fuel gives the same token list. -/
theorem tokenLoop_fuel (fuel : Nat) (data : Str) (h : data.length < fuel) :
    tokenLoop fuel data [] = tokenize data :=
  tokenLoop_fuel_indep fuel (data.length + 1) data [] h (Nat.lt_succ_self _)

/-- C9: on the body `BGF  0\t1   100052` (two spaces, a tab, three spaces) the tokenizer gives
the three tokens `BGF`, `0\t1`, `100052`: the tab does not separate, it stays inside the
second token. -/
theorem tokenize_tab_not_split :
    tokenize (bytes "BGF  0\t1   100052") = [bytes "BGF", bytes "0\t1", bytes "100052"] ∧
    tokenize (bytes "BGF  0\t1   100052") ≠ [bytes "BGF", bytes "0", bytes "1", bytes "100052"] := by
  decide

/-! ## The tokens are the pieces between spaces -/

theorem splitOn_SPACE_cons (c : Byte) (rest : Str) :
    (c :: rest).splitOn SPACE =
      if c = SPACE then [] :: rest.splitOn SPACE
      else (rest.splitOn SPACE).modifyHead (List.cons c) := by
  unfold List.splitOn
  rw [List.splitOnP_cons]
  by_cases h : c = SPACE <;> simp [h]

theorem splitOn_SPACE_eq (ss : Str) :
    ss.splitOn SPACE =
      ss.takeWhile (fun c => c != SPACE) ::
        (if ss.dropWhile (fun c => c != SPACE) = [] then []
         else ((ss.dropWhile (fun c => c != SPACE)).drop 1).splitOn SPACE) := by
  induction ss with
  | nil => rfl
  | cons c r ih =>
    rw [splitOn_SPACE_cons]
    by_cases h : c = SPACE
    · subst h
      simp [List.takeWhile, List.dropWhile]
    · have hb : (c != SPACE) = true := by simp [h]
      rw [if_neg h, ih]
      simp only [List.takeWhile, List.dropWhile, hb, List.modifyHead_cons]

theorem wordsOf_nil : wordsOf [] = [] := rfl

theorem wordsOf_getline (ss item rest : Str) (h : getline ss SPACE = some (item, rest)) :
    wordsOf ss = (if item.isEmpty then [] else [item]) ++ wordsOf rest := by
  cases ss with
  | nil => simp [getline] at h
  | cons c r =>
    simp only [getline, Option.some.injEq, Prod.mk.injEq] at h
    obtain ⟨h1, h2⟩ := h
    unfold wordsOf
    rw [splitOn_SPACE_eq (c :: r), h1]
    by_cases hd : (c :: r).dropWhile (fun c => c != SPACE) = []
    · rw [if_pos hd]
      rw [hd] at h2
      simp only [List.drop_nil] at h2
      subst h2
      cases item <;> simp [List.filter]
    · rw [if_neg hd, h2]
      cases item <;> simp [List.filter]

theorem tokenLoop_eq (fuel : Nat) (ss : Str) (parts : List Str) (h : ss.length < fuel) :
    tokenLoop fuel ss parts = parts ++ wordsOf ss := by
  induction fuel generalizing ss parts with
  | zero => omega
  | succ n ih =>
    unfold tokenLoop
    cases hg : getline ss SPACE with
    | none =>
      cases ss with
      | nil => simp [wordsOf_nil]
      | cons c r => simp [getline] at hg
    | some p =>
      obtain ⟨item, rest⟩ := p
      have hl := getline_length ss item rest SPACE hg
      simp only
      rw [ih rest _ (by omega), wordsOf_getline ss item rest hg]
      cases item <;> simp

theorem tokenize_eq_wordsOf (data : Str) : tokenize data = wordsOf data := by
  unfold tokenize
  rw [tokenLoop_eq _ _ _ (Nat.lt_succ_self _)]
  rfl

theorem not_mem_of_mem_splitOn (l seg : Str) (h : seg ∈ l.splitOn SPACE) : SPACE ∉ seg := by
  induction l generalizing seg with
  | nil => simp at h; subst h; simp
  | cons c r ih =>
    rw [splitOn_SPACE_cons] at h
    by_cases hc : c = SPACE
    · rw [if_pos hc] at h
      rcases List.mem_cons.1 h with rfl | h
      · simp
      · exact ih seg h
    · rw [if_neg hc] at h
      obtain ⟨s, ss, hs⟩ := List.exists_cons_of_ne_nil (List.splitOnP_ne_nil (fun x => x == SPACE) r)
      have hs2 : r.splitOn SPACE = s :: ss := hs
      rw [hs2] at h ih
      simp only [List.modifyHead_cons] at h
      rcases List.mem_cons.1 h with rfl | h
      · have := ih s (List.mem_cons_self _ _)
        simp [this, Ne.symm hc]
      · exact ih seg (List.mem_cons_of_mem _ h)

theorem flatten_splitOn (l : Str) :
    (l.splitOn SPACE).flatten = l.filter (fun c => c != SPACE) := by
  induction l with
  | nil => rfl
  | cons c r ih =>
    rw [splitOn_SPACE_cons]
    by_cases hc : c = SPACE
    · rw [if_pos hc]
      simp [ih, hc]
    · rw [if_neg hc]
      obtain ⟨s, ss, hs⟩ := List.exists_cons_of_ne_nil (List.splitOnP_ne_nil (fun x => x == SPACE) r)
      have hs2 : r.splitOn SPACE = s :: ss := hs
      rw [hs2] at ih ⊢
      simp only [List.modifyHead_cons, List.flatten_cons, List.cons_append] at ih ⊢
      rw [ih]
      simp [hc]

theorem flatten_filter_nonempty (l : List Str) :
    (l.filter (fun t => !t.isEmpty)).flatten = l.flatten := by
  induction l with
  | nil => rfl
  | cons a r ih =>
    cases a with
    | nil => simpa [List.filter] using ih
    | cons x y => simp [List.filter, ih]

/-- C18: every token is non-empty and has no space; the tokens, concatenated, are the body
with its spaces removed, so they come in the order of the body and only spaces are lost
(they are the pieces between spaces, the empty ones dropped); the empty body and a body of
spaces only give no token. -/
theorem tokenizer_invariants (body : Str) :
    (∀ t ∈ tokenize body, t ≠ [] ∧ SPACE ∉ t) ∧
    (tokenize body).flatten = body.filter (fun c => c != SPACE) ∧
    tokenize body = (body.splitOn SPACE).filter (fun t => !t.isEmpty) ∧
    tokenize [] = [] ∧
    (∀ n : Nat, tokenize (List.replicate n SPACE) = []) ∧
    ((∀ c ∈ body, c = SPACE) → tokenize body = []) := by
  have hmem : ∀ (b : Str), ∀ t ∈ tokenize b, t ≠ [] ∧ SPACE ∉ t := by
    intro b t ht
    rw [tokenize_eq_wordsOf] at ht
    obtain ⟨h1, h2⟩ := List.mem_filter.1 ht
    refine ⟨?_, not_mem_of_mem_splitOn b t h1⟩
    intro e
    simp [e] at h2
  have hflat : ∀ b : Str, (tokenize b).flatten = b.filter (fun c => c != SPACE) := by
    intro b
    rw [tokenize_eq_wordsOf, wordsOf, flatten_filter_nonempty, flatten_splitOn]
  have hsp : ∀ b : Str, (∀ c ∈ b, c = SPACE) → tokenize b = [] := by
    intro b hb
    have hf := hflat b
    have hnil : b.filter (fun c => c != SPACE) = [] := by
      rw [List.filter_eq_nil_iff]
      intro c hc
      simp [hb c hc]
    rw [hnil] at hf
    cases hq : tokenize b with
    | nil => rfl
    | cons t ts =>
      have := (hmem b t (by rw [hq]; exact List.mem_cons_self _ _)).1
      rw [hq] at hf
      simp only [List.flatten_cons, List.append_eq_nil] at hf
      exact absurd hf.1 this
  refine ⟨hmem body, hflat body, tokenize_eq_wordsOf body, rfl, ?_, hsp body⟩
  intro n
  exact hsp _ (fun c hc => List.eq_of_mem_replicate hc)

/-- C18 on a body of three spaces. -/
theorem tokenizer_invariants_witness :
    (∀ c ∈ [SPACE, SPACE, SPACE], c = SPACE) ∧ tokenize [SPACE, SPACE, SPACE] = [] :=
  ⟨fun c hc => by simpa using hc,
    (tokenizer_invariants [SPACE, SPACE, SPACE]).2.2.2.2.2 (fun c hc => by simpa using hc)⟩

/-! ## The fault branch -/

theorem wordsOf_space (l : Str) : wordsOf (SPACE :: l) = wordsOf l := by
  unfold wordsOf
  rw [splitOn_SPACE_cons]
  simp [List.filter]

theorem wordsOf_spaces (n : Nat) (l : Str) : wordsOf (List.replicate n SPACE ++ l) = wordsOf l := by
  induction n with
  | zero => rfl
  | succ k ih => rw [List.replicate_succ, List.cons_append, wordsOf_space, ih]

theorem wordsOf_word (w l : Str) (hne : w ≠ []) (hsp : SPACE ∉ w)
    (hl : l = [] ∨ l.head? = some SPACE) : wordsOf (w ++ l) = w :: wordsOf l := by
  have hp : ∀ a ∈ w, (fun c => c != SPACE) a = true := by
    intro a ha
    have : a ≠ SPACE := fun e => hsp (e ▸ ha)
    simp [this]
  have hw : (!w.isEmpty) = true := by
    cases w with
    | nil => exact absurd rfl hne
    | cons a b => rfl
  have key : (w ++ l).splitOn SPACE =
      w :: (if l = [] then [] else (l.drop 1).splitOn SPACE) := by
    rw [splitOn_SPACE_eq (w ++ l), List.takeWhile_append_of_pos hp,
      List.dropWhile_append_of_pos hp]
    rcases hl with rfl | hl
    · simp
    · cases l with
      | nil => simp at hl
      | cons c r =>
        simp only [List.head?_cons, Option.some.injEq] at hl
        subst hl
        have e1 : List.takeWhile (fun c => c != SPACE) (SPACE :: r) = [] := by
          simp [List.takeWhile]
        have e2 : List.dropWhile (fun c => c != SPACE) (SPACE :: r) = SPACE :: r := by
          simp [List.dropWhile]
        rw [e1, e2]
        simp
  rcases hl with rfl | hl
  · unfold wordsOf
    rw [key]
    simp [List.filter, hw]
  · cases l with
    | nil => simp at hl
    | cons c r =>
      simp only [List.head?_cons, Option.some.injEq] at hl
      subst hl
      rw [wordsOf_space]
      unfold wordsOf
      rw [key]
      simp only [List.filter, hw, reduceCtorEq, ↓reduceIte, List.drop_succ_cons, List.drop_zero]

theorem spaced_head (gw : List (Nat × Str)) (k : Nat) :
    spaced gw ++ List.replicate k SPACE = [] ∨
      (spaced gw ++ List.replicate k SPACE).head? = some SPACE := by
  cases gw with
  | nil =>
    cases k with
    | zero => left; rfl
    | succ j => right; rfl
  | cons p rest =>
    obtain ⟨n, w⟩ := p
    right
    simp [spaced, List.replicate_succ]

theorem wordsOf_spaced (gw : List (Nat × Str)) (k : Nat)
    (h : ∀ p ∈ gw, p.2 ≠ [] ∧ SPACE ∉ p.2) :
    wordsOf (spaced gw ++ List.replicate k SPACE) = gw.map (fun p => p.2) := by
  induction gw with
  | nil =>
    have := wordsOf_spaces k []
    simpa [spaced, wordsOf_nil] using this
  | cons p rest ih =>
    obtain ⟨n, w⟩ := p
    have hw := h (n, w) (List.mem_cons_self _ _)
    have hr : ∀ p ∈ rest, p.2 ≠ [] ∧ SPACE ∉ p.2 := fun q hq => h q (List.mem_cons_of_mem _ hq)
    simp only [spaced, List.append_assoc, List.map_cons]
    rw [wordsOf_spaces, wordsOf_word w _ hw.1 hw.2 (spaced_head rest k), ih hr]

theorem faultLoop_false (ws : List Str) (acc : Str) :
    faultLoop ws false acc = acc ++ (ws.map (fun w => SPACE :: w)).flatten := by
  induction ws generalizing acc with
  | nil => simp [faultLoop]
  | cons w r ih => simp [faultLoop, ih]

theorem intercalate_cons (w : Str) (ws : List Str) :
    List.intercalate [SPACE] (w :: ws) = w ++ (ws.map (fun w => SPACE :: w)).flatten := by
  induction ws generalizing w with
  | nil => simp [List.intercalate, List.intersperse]
  | cons v r ih =>
    have := ih v
    simp only [List.intercalate, List.intersperse, List.flatten_cons] at this ⊢
    rw [this]
    simp

theorem faultLoop_eq (ws : List Str) : faultLoop ws true [] = List.intercalate [SPACE] ws := by
  cases ws with
  | nil => rfl
  | cons w r =>
    rw [intercalate_cons]
    simp [faultLoop, faultLoop_false]

theorem process_line_gfs (stof : Str → Except Fault F) (m : Registry) (line : Str)
    (h0 : (lineTokens line)[0]? = some (bytes "GFS")) :
    process_line stof m line =
      ⟨[Event.log (Diag.faultMessage (List.intercalate [SPACE] ((lineTokens line).drop 1))),
        Event.log Diag.processingTime], m, none⟩ := by
  unfold lineTokens at h0 ⊢
  unfold process_line
  cases hf : find line STAR with
  | none => simp [hf] at h0
  | some a =>
    simp only [hf] at h0 ⊢
    have hne : (tokenize (substr line 0 a)).isEmpty = false := by
      cases hq : tokenize (substr line 0 a) with
      | nil => simp [hq] at h0
      | cons x y => rfl
    have hA : ¬ (bytes "GFS" = bytes "BGF" ∧ (tokenize (substr line 0 a)).length ≥ 7) := by
      intro hh
      exact absurd hh.1 (by decide)
    have hB : ¬ (bytes "GFS" = bytes "AIN" ∧ (tokenize (substr line 0 a)).length ≥ 2) := by
      intro hh
      exact absurd hh.1 (by decide)
    simp only [hne, Bool.false_eq_true, ↓reduceIte, vget_of_getElem? h0, hA, hB, faultLoop_eq]

theorem lineTokens_append (body cs : Str) (h : STAR ∉ body) :
    lineTokens (body ++ STAR :: cs) = tokenize body := by
  simp [lineTokens, find_append_star h, substr]

theorem star_not_mem_spaced (gw : List (Nat × Str)) (h : ∀ p ∈ gw, STAR ∉ p.2) :
    STAR ∉ spaced gw := by
  induction gw with
  | nil => simp [spaced]
  | cons p rest ih =>
    obtain ⟨n, w⟩ := p
    have hw := h (n, w) (List.mem_cons_self _ _)
    have hr := ih (fun q hq => h q (List.mem_cons_of_mem _ hq))
    have hs : STAR ≠ SPACE := by decide
    simp only [spaced, List.mem_append, not_or]
    exact ⟨⟨fun hm => hs (List.eq_of_mem_replicate hm), hw⟩, hr⟩

/-- C11: on a line whose first token is `GFS`, `process_line` logs as fault message the
remaining tokens joined with one space between consecutive tokens, then the processing time,
and publishes nothing.  So for non-empty words without space (and without `*`), a line made
of `GFS` and the words, with any number of spaces before `GFS`, one or more between words and
any number at the end, gives as fault message the words separated by single spaces. -/
theorem fault_payload_rejoin (stof : Str → Except Fault F) (m : Registry) (line : Str)
    (h0 : (lineTokens line)[0]? = some (bytes "GFS")) :
    process_line stof m line =
      ⟨[Event.log (Diag.faultMessage (List.intercalate [SPACE] ((lineTokens line).drop 1))),
        Event.log Diag.processingTime], m, none⟩ ∧
    publications (process_line stof m line).events = [] ∧
    (∀ (n0 k : Nat) (gw : List (Nat × Str)) (cs : Str),
      (∀ p ∈ gw, p.2 ≠ [] ∧ SPACE ∉ p.2 ∧ STAR ∉ p.2) →
      process_line stof m
          (List.replicate n0 SPACE ++ bytes "GFS" ++ spaced gw ++ List.replicate k SPACE ++
            STAR :: cs) =
        ⟨[Event.log (Diag.faultMessage (List.intercalate [SPACE] (gw.map (fun p => p.2)))),
          Event.log Diag.processingTime], m, none⟩) := by
  have key := process_line_gfs stof m line h0
  refine ⟨key, by rw [key]; rfl, ?_⟩
  intro n0 k gw cs hgw
  have hstar : STAR ∉ List.replicate n0 SPACE ++ bytes "GFS" ++ spaced gw ++ List.replicate k SPACE := by
    have hs : STAR ≠ SPACE := by decide
    have hg : STAR ∉ bytes "GFS" := by decide
    have hsp := star_not_mem_spaced gw (fun p hp => (hgw p hp).2.2)
    simp only [List.mem_append, not_or]
    exact ⟨⟨⟨fun hm => hs (List.eq_of_mem_replicate hm), hg⟩, hsp⟩,
      fun hm => hs (List.eq_of_mem_replicate hm)⟩
  have htok : lineTokens (List.replicate n0 SPACE ++ bytes "GFS" ++ spaced gw ++
      List.replicate k SPACE ++ STAR :: cs) = bytes "GFS" :: gw.map (fun p => p.2) := by
    rw [lineTokens_append _ cs hstar, tokenize_eq_wordsOf]
    simp only [List.append_assoc]
    rw [wordsOf_spaces, wordsOf_word (bytes "GFS") _ (by decide) (by decide) (spaced_head gw k),
      wordsOf_spaced gw k (fun p hp => ⟨(hgw p hp).1, (hgw p hp).2.1⟩)]
  have h1 := process_line_gfs stof m (List.replicate n0 SPACE ++ bytes "GFS" ++ spaced gw ++
      List.replicate k SPACE ++ STAR :: cs) (by rw [htok]; simp)
  rw [h1, htok]
  simp

/-- C11 on the fault line of the message block. -/
theorem fault_payload_rejoin_witness :
    diagnostics (process_line stofDecimal [(0, [10, 11])]
        (bytes "GFS BENDER 2: FLAT LINE LOW -- SHORT -- FAULT INDICATED  *02")).events =
      [Diag.faultMessage (bytes "BENDER 2: FLAT LINE LOW -- SHORT -- FAULT INDICATED"),
        Diag.processingTime] :=
  (congrArg (fun o => diagnostics o.events)
    (fault_payload_rejoin stofDecimal [(0, [10, 11])]
      (bytes "GFS BENDER 2: FLAT LINE LOW -- SHORT -- FAULT INDICATED  *02") (by decide)).1).trans
    (by decide)

/-! ## Lines that are not recognized -/

theorem process_line_unhandled (stof : Str → Except Fault F) (m : Registry) (line p0 : Str)
    (h0 : (lineTokens line)[0]? = some p0)
    (hb : ¬ (p0 = bytes "BGF" ∧ 7 ≤ (lineTokens line).length))
    (ha : ¬ (p0 = bytes "AIN" ∧ 2 ≤ (lineTokens line).length))
    (hg : p0 ≠ bytes "GFS") :
    process_line stof m line =
      ⟨[Event.log (Diag.unhandled line), Event.log Diag.processingTime], m, none⟩ := by
  unfold lineTokens at h0 hb ha
  unfold process_line
  cases hf : find line STAR with
  | none => simp [hf] at h0
  | some a =>
    simp only [hf] at h0 hb ha ⊢
    have hne : (tokenize (substr line 0 a)).isEmpty = false := by
      cases hq : tokenize (substr line 0 a) with
      | nil => simp [hq] at h0
      | cons x y => rfl
    simp only [hne, Bool.false_eq_true, ↓reduceIte, vget_of_getElem? h0, ge_iff_le, hb, ha, hg]

theorem process_line_no_tokens (stof : Str → Except Fault F) (m : Registry) (line : Str)
    (h : lineTokens line = []) : process_line stof m line = ⟨[], m, none⟩ := by
  unfold lineTokens at h
  unfold process_line
  cases hf : find line STAR with
  | none => rfl
  | some a =>
    simp only [hf] at h ⊢
    simp [h]

/-- C12, as amended: a line with at least one token that is neither a status report (`BGF`
with at least 7 tokens) nor an analog report (`AIN` with at least 2 tokens) nor a fault report
(`GFS`) is dropped with the log call "Unhandled message type or not enough parts" carrying
the line, then the processing time, and nothing is published; a line whose body has no token
at all makes `process_line` return at once: no log call, no publication. -/
theorem unrecognized_line (stof : Str → Except Fault F) (m : Registry) (line : Str) :
    (∀ p0 : Str, (lineTokens line)[0]? = some p0 →
      ¬ (p0 = bytes "BGF" ∧ 7 ≤ (lineTokens line).length) →
      ¬ (p0 = bytes "AIN" ∧ 2 ≤ (lineTokens line).length) →
      p0 ≠ bytes "GFS" →
      process_line stof m line =
        ⟨[Event.log (Diag.unhandled line), Event.log Diag.processingTime], m, none⟩ ∧
      publications (process_line stof m line).events = []) ∧
    (lineTokens line = [] →
      process_line stof m line = ⟨[], m, none⟩ ∧
      diagnostics (process_line stof m line).events = [] ∧
      publications (process_line stof m line).events = []) := by
  constructor
  · intro p0 h0 hb ha hg
    have key := process_line_unhandled stof m line p0 h0 hb ha hg
    exact ⟨key, by rw [key]; rfl⟩
  · intro h
    have key := process_line_no_tokens stof m line h
    exact ⟨key, by rw [key]; rfl, by rw [key]; rfl⟩

/-- C12 on an unknown keyword, on `BGF` with three tokens and on `AIN` alone. -/
theorem unrecognized_line_witness :
    validate_checksum (bytes "XYZ 1 2 *CE") = true ∧
    process_line stofDecimal [(0, [10, 11])] (bytes "XYZ 1 2 *CE") =
      ⟨[Event.log (Diag.unhandled (bytes "XYZ 1 2 *CE")), Event.log Diag.processingTime],
        [(0, [10, 11])], none⟩ ∧
    process_line stofDecimal [(0, [10, 11])] (bytes "BGF 0 1 *90") =
      ⟨[Event.log (Diag.unhandled (bytes "BGF 0 1 *90")), Event.log Diag.processingTime],
        [(0, [10, 11])], none⟩ ∧
    process_line stofDecimal [(0, [10, 11])] (bytes "AIN *F8") =
      ⟨[Event.log (Diag.unhandled (bytes "AIN *F8")), Event.log Diag.processingTime],
        [(0, [10, 11])], none⟩ :=
  ⟨by decide,
    ((unrecognized_line stofDecimal [(0, [10, 11])] (bytes "XYZ 1 2 *CE")).1 (bytes "XYZ")
      (by decide) (by decide) (by decide) (by decide)).1,
    ((unrecognized_line stofDecimal [(0, [10, 11])] (bytes "BGF 0 1 *90")).1 (bytes "BGF")
      (by decide) (by decide) (by decide) (by decide)).1,
    ((unrecognized_line stofDecimal [(0, [10, 11])] (bytes "AIN *F8")).1 (bytes "AIN")
      (by decide) (by decide) (by decide) (by decide)).1⟩

/-- C12, counterexample: the lines `*00` and ` *20` pass the checksum and have no token;
`process_line` returns without any log call, and the loop logs nothing either. -/
theorem no_token_line_counterexample :
    validate_checksum (bytes "*00") = true ∧
    validate_checksum (bytes " *20") = true ∧
    process_line stofDecimal [(0, [10, 11])] (bytes "*00") = ⟨[], [(0, [10, 11])], none⟩ ∧
    process_line stofDecimal [(0, [10, 11])] (bytes " *20") = ⟨[], [(0, [10, 11])], none⟩ ∧
    diagnostics (loop stofDecimal (Core.start [(0, [10, 11])]) (bytes "*00\n *20\n")).2 = [] ∧
    processedLines (loop stofDecimal (Core.start [(0, [10, 11])]) (bytes "*00\n *20\n")).2 =
      [bytes "*00", bytes " *20"] := by
  decide

/-! ## No diagnostic for an unregistered unit -/

/-- C16, as amended: on a line whose tokens start with `BGF`, number at least 7 and have a
unit id that `std::stoi` accepts and that is not registered, `process_line` emits no
diagnostic for the unregistered unit: the only log call of the header implementation is the
processing time, the very log calls it makes when the unit is registered and published, and
the component implementation logs nothing. -/
theorem unregistered_unit_no_diagnostic (stof : Str → Except Fault F) (m : Registry)
    (line t1 : Str) (unit : Int)
    (h0 : (lineTokens line)[0]? = some (bytes "BGF")) (h7 : 7 ≤ (lineTokens line).length)
    (h1 : (lineTokens line)[1]? = some t1) (hu : stoi t1 = .ok unit)
    (hl : m.lookup unit = none) :
    diagnostics (process_line stof m line).events = [Diag.processingTime] ∧
    diagnostics (process_line_component stof m line).events = [] ∧
    (∀ (m' : Registry) (sinks : List SinkId) (s0 s1 : SinkId) (t2 t6 : Str) (status : Int)
      (r : F), m'.lookup unit = some sinks → sinks[0]? = some s0 → sinks[1]? = some s1 →
      (lineTokens line)[2]? = some t2 → stoi t2 = .ok status →
      (lineTokens line)[6]? = some t6 → stof t6 = .ok r →
      diagnostics (process_line stof m' line).events =
        diagnostics (process_line stof m line).events) := by
  have k1 := process_line_bgf stof m line h0 h7
  have k2 := process_line_component_bgf stof m line h0 h7
  rw [bgfBranch_unregistered stof m _ _ t1 unit h1 hu hl] at k1 k2
  refine ⟨by rw [k1]; rfl, by rw [k2]; rfl, ?_⟩
  intro m' sinks s0 s1 t2 t6 status r hl' hs0 hs1 h2 hst h6 hr
  have k3 := process_line_bgf stof m' line h0 h7
  rw [bgfBranch_publish stof m' _ _ t1 t2 t6 unit status r sinks s0 s1 h1 hu hl' hs0 h2 hst hs1
    h6 hr] at k3
  rw [k1, k3]
  rfl

/-- C16 on a status line for unit 9 with only unit 0 registered. -/
theorem unregistered_unit_no_diagnostic_witness :
    diagnostics (process_line stofDecimal [(0, [10, 11])]
      (bytes "BGF 9 1 100052 18496 184 6859 *C6")).events = [Diag.processingTime] :=
  (unregistered_unit_no_diagnostic stofDecimal [(0, [10, 11])]
    (bytes "BGF 9 1 100052 18496 184 6859 *C6") (bytes "9") 9
    (by decide) (by decide) (by decide) (by decide) (by decide)).1

/-- C16, counterexample: the validated status line for unit 9, which is not registered, and
the one for unit 0, which is, produce the same single log call, the processing time; nothing
in the log tells the unregistered unit. -/
theorem unregistered_unit_counterexample :
    validate_checksum (bytes "BGF 9 1 100052 18496 184 6859 *C6") = true ∧
    diagnostics (process_line stofDecimal [(0, [10, 11])]
      (bytes "BGF 9 1 100052 18496 184 6859 *C6")).events = [Diag.processingTime] ∧
    diagnostics (process_line stofDecimal [(0, [10, 11])]
      (bytes "BGF 0 1 100052 18496 184 6859 *BD")).events = [Diag.processingTime] ∧
    diagnostics (process_line_component stofDecimal [(0, [10, 11])]
      (bytes "BGF 9 1 100052 18496 184 6859 *C6")).events = [] := by
  decide

/-! ## One checksum delimiter -/

theorem validate_checksum_shape (line : Str) (h : validate_checksum line = true) :
    ∃ body, STAR ∉ body ∧ line = body ++ STAR :: upperHex (byteSum body % 256) := by
  obtain ⟨i, hf, hd⟩ := (validate_checksum_iff_find line).1 h
  obtain ⟨hn, hs⟩ := find_eq_some.1 hf
  refine ⟨line.take i, hn, ?_⟩
  rw [← hd, ← hs, List.take_append_drop]

theorem hexTable_digit :
    ∀ d < 16, isUpperHexDigit ((bytes "0123456789ABCDEF").getD d 0) = true ∧
      (bytes "0123456789ABCDEF").getD d 0 ≠ STAR := by
  decide

theorem upperHex_digits (n : Nat) (h : n < 256) :
    ∃ a b, upperHex n = [a, b] ∧ isUpperHexDigit a = true ∧ isUpperHexDigit b = true ∧
      a ≠ STAR ∧ b ≠ STAR := by
  have h1 := hexTable_digit (n / 16) (by omega)
  have h2 := hexTable_digit (n % 16) (by omega)
  exact ⟨_, _, rfl, h1.1, h2.1, h1.2, h2.2⟩

/-- C17: a line that `validate_checksum` accepts contains exactly one `*`, at index
`length - 3`, and ends after it with exactly two characters, each one of `0`-`9`, `A`-`F`. -/
theorem single_delimiter (line : Str) (h : validate_checksum line = true) :
    line.count STAR = 1 ∧ 3 ≤ line.length ∧ (line)[line.length - 3]? = some STAR ∧
    find line STAR = some (line.length - 3) ∧
    ∃ a b, line.drop (line.length - 2) = [a, b] ∧
      isUpperHexDigit a = true ∧ isUpperHexDigit b = true := by
  obtain ⟨body, hb, rfl⟩ := validate_checksum_shape line h
  obtain ⟨a, b, hab, ha, hbb, hna, hnb⟩ := upperHex_digits (byteSum body % 256)
    (Nat.mod_lt _ (by norm_num))
  rw [hab]
  have hlen : (body ++ STAR :: [a, b]).length - 3 = body.length := by simp
  have hlen2 : (body ++ STAR :: [a, b]).length - 2 = body.length + 1 := by simp
  refine ⟨?_, by simp, ?_, ?_, a, b, ?_, ha, hbb⟩
  · rw [List.count_append, List.count_eq_zero_of_not_mem hb]
    simp [List.count_cons, Ne.symm hna, Ne.symm hnb]
  · rw [hlen, List.getElem?_append_right (Nat.le_refl _)]
    simp
  · rw [hlen]
    exact find_append_star hb
  · rw [hlen2]
    simp

/-- C17 on the status line of the protocol example. -/
theorem single_delimiter_witness :
    validate_checksum (bytes "BGF 0 1 100052 18496 184 6859 *BD") = true ∧
    (bytes "BGF 0 1 100052 18496 184 6859 *BD").count STAR = 1 :=
  ⟨by decide, (single_delimiter (bytes "BGF 0 1 100052 18496 184 6859 *BD") (by decide)).1⟩

/-! ## The two implementations -/

theorem publications_ainLoop (fuel i : Nat) (input_count : Int) (parts : List Str) :
    publications (ainLoop fuel i input_count parts : List (Event F) × Option Fault).1 = [] := by
  induction fuel generalizing i with
  | zero => rfl
  | succ n ih =>
    unfold ainLoop
    split
    · split
      · rfl
      · exact ih _
    · rfl

theorem publications_append (a b : List (Event F)) :
    publications (a ++ b) = publications a ++ publications b := by
  simp [publications]

theorem bgfBranch_tail (stof : Str → Except Fault F) (m : Registry) (parts : List Str)
    (tail : List (Event F)) (ht : publications tail = []) :
    (bgfBranch stof m parts tail).fault = (bgfBranch stof m parts []).fault ∧
    publications (bgfBranch stof m parts tail).events =
      publications (bgfBranch stof m parts []).events := by
  unfold bgfBranch
  split
  · exact ⟨rfl, rfl⟩
  split
  · exact ⟨rfl, rfl⟩
  split
  · dsimp only
    repeat' split
    all_goals first
      | exact ⟨rfl, rfl⟩
      | refine ⟨rfl, ?_⟩
        show publications ([_, _] ++ tail) = _
        rw [publications_append, ht, List.append_nil]
        rfl
  · exact ⟨rfl, by rw [ht]; rfl⟩

/-- C19: the validator of the component implementation returns what the validator of the
header implementation returns, on every line; and whenever `process_line` of the header
implementation returns normally, so does `process_line` of the component implementation, with
the same sink publications in the same order and the same registry. -/
theorem implementations_agree (stof : Str → Except Fault F) (m : Registry) (line : Str) :
    validate_checksum_component line = validate_checksum line ∧
    ((process_line stof m line).fault = none →
      (process_line_component stof m line).fault = none ∧
      publications (process_line_component stof m line).events =
        publications (process_line stof m line).events ∧
      (process_line_component stof m line).bender_sensors =
        (process_line stof m line).bender_sensors) := by
  refine ⟨rfl, ?_⟩
  intro h
  refine ⟨?_, ?_, by rw [process_line_registry, process_line_component_registry]⟩
  · revert h
    unfold process_line process_line_component
    split
    · exact fun _ => rfl
    dsimp only
    split
    · exact fun _ => rfl
    split
    · exact fun h => h
    split
    · intro h
      rw [← (bgfBranch_tail stof m _ [Event.log Diag.processingTime] rfl).1]
      exact h
    · exact fun _ => rfl
  · revert h
    unfold process_line process_line_component
    split
    · exact fun _ => rfl
    dsimp only
    split
    · exact fun _ => rfl
    split
    · exact fun _ => rfl
    split
    · intro _
      exact ((bgfBranch_tail stof m _ [Event.log Diag.processingTime] rfl).2).symm
    · split
      · split
        · exact fun _ => rfl
        split
        · exact fun _ => rfl
        split
        · intro h
          simp at h
        · rename_i logged heq
          intro _
          have h2 := congrArg Prod.fst heq
          simp only at h2
          rw [← h2, publications_append, publications_ainLoop]
          rfl
      · split
        · exact fun _ => rfl
        · exact fun _ => rfl

/-- C19 on the status line of the protocol example. -/
theorem implementations_agree_witness :
    (process_line stofDecimal [(0, [10, 11])]
      (bytes "BGF 0 1 100052 18496 184 6859 *BD")).fault = none ∧
    publications (process_line_component stofDecimal [(0, [10, 11])]
      (bytes "BGF 0 1 100052 18496 184 6859 *BD")).events =
      [(10, Val.ofInt 1), (11, Val.ofFloat (FloatText.decimal false 6859 0))] :=
  ⟨by decide,
    ((implementations_agree stofDecimal [(0, [10, 11])]
      (bytes "BGF 0 1 100052 18496 184 6859 *BD")).2 (by decide)).2.1.trans (by decide)⟩

/-! ## Index safety -/

theorem stoi_ne_vector_index (s : Str) : stoi s ≠ .error .vector_index := by
  unfold stoi
  simp only
  repeat' split
  all_goals simp

theorem stofDecimal_ne_vector_index (s : Str) : stofDecimal s ≠ .error .vector_index := by
  unfold stofDecimal
  simp only
  repeat' split
  all_goals simp

theorem vget_ok_of_lt {α : Type} (v : List α) (i : Nat) (h : i < v.length) :
    ∃ a, v[i]? = some a ∧ vget v i = .ok a :=
  ⟨v[i], List.getElem?_eq_getElem h, vget_of_getElem? (List.getElem?_eq_getElem h)⟩

theorem ainLoop_no_fault (fuel i : Nat) (input_count : Int) (parts : List Str) :
    (ainLoop fuel i input_count parts : List (Event F) × Option Fault).2 = none := by
  induction fuel generalizing i with
  | zero => rfl
  | succ n ih =>
    unfold ainLoop
    split
    · rename_i hc
      obtain ⟨a, _, ha⟩ := vget_ok_of_lt parts (i + 2) hc.2
      rw [ha]
      exact ih _
    · rfl

theorem bgfBranch_vector_index (stof : Str → Except Fault F)
    (hstof : ∀ s, stof s ≠ .error .vector_index) (m : Registry) (parts : List Str)
    (tail : List (Event F)) (h7 : 7 ≤ parts.length)
    (hf : (bgfBranch stof m parts tail).fault = some .vector_index) :
    ∃ t1 unit sinks, parts[1]? = some t1 ∧ stoi t1 = .ok unit ∧ m.lookup unit = some sinks ∧
      sinks.length < 2 := by
  obtain ⟨p1, g1, e1⟩ := vget_ok_of_lt parts 1 (by omega)
  obtain ⟨p2, g2, e2⟩ := vget_ok_of_lt parts 2 (by omega)
  obtain ⟨p6, g6, e6⟩ := vget_ok_of_lt parts 6 (by omega)
  unfold bgfBranch at hf
  simp only [e1, e2, e6] at hf
  cases hu : stoi p1 with
  | error e =>
    simp only [hu, Option.some.injEq] at hf
    exact absurd (hf ▸ hu) (stoi_ne_vector_index p1)
  | ok unit =>
    simp only [hu] at hf
    cases hl : m.lookup unit with
    | none => simp [Registry.count_of_lookup_none hl] at hf
    | some sinks =>
      refine ⟨p1, unit, sinks, g1, hu, hl, ?_⟩
      simp only [Registry.count_of_lookup hl, Registry.index_of_lookup hl, gt_iff_lt,
        Nat.lt_one_iff, Nat.one_pos, ↓reduceIte] at hf
      by_contra hlen
      obtain ⟨s0, _, f0⟩ := vget_ok_of_lt sinks 0 (by omega)
      obtain ⟨s1, _, f1⟩ := vget_ok_of_lt sinks 1 (by omega)
      simp only [f0, f1] at hf
      cases hs : stoi p2 with
      | error e =>
        simp only [hs, Option.some.injEq] at hf
        exact absurd (hf ▸ hs) (stoi_ne_vector_index p2)
      | ok status =>
        simp only [hs] at hf
        cases hr : stof p6 with
        | error e =>
          simp only [hr, Option.some.injEq] at hf
          exact absurd (hf ▸ hr) (hstof p6)
        | ok r => simp [hr] at hf

theorem mem_of_lookup (m : Registry) (k : Int) (v : List SinkId) (h : m.lookup k = some v) :
    (k, v) ∈ m := by
  induction m with
  | nil => simp at h
  | cons e rest ih =>
    obtain ⟨k', v'⟩ := e
    by_cases hk : k = k'
    · subst hk
      simp [List.lookup] at h
      subst h
      exact List.mem_cons_self _ _
    · have hb : (k == k') = false := by simp [hk]
      simp only [List.lookup, hb] at h
      exact List.mem_cons_of_mem _ (ih h)

theorem process_line_vector_index (stof : Str → Except Fault F)
    (hstof : ∀ s, stof s ≠ .error .vector_index) (m : Registry) (line : Str)
    (hf : (process_line stof m line).fault = some .vector_index) :
    ∃ t1 unit sinks, (lineTokens line)[0]? = some (bytes "BGF") ∧
      7 ≤ (lineTokens line).length ∧ (lineTokens line)[1]? = some t1 ∧ stoi t1 = .ok unit ∧
      m.lookup unit = some sinks ∧ sinks.length < 2 := by
  unfold process_line at hf
  unfold lineTokens
  cases hfind : find line STAR with
  | none => simp [hfind] at hf
  | some a =>
    simp only [hfind] at hf ⊢
    generalize tokenize (substr line 0 a) = parts at hf ⊢
    cases parts with
    | nil => simp at hf
    | cons p0 rest =>
      have e0 : vget (p0 :: rest) 0 = .ok p0 := by simp [vget]
      simp only [List.isEmpty_cons, Bool.false_eq_true, ↓reduceIte, e0] at hf
      by_cases hb : p0 = bytes "BGF" ∧ (p0 :: rest).length ≥ 7
      · rw [if_pos hb] at hf
        obtain ⟨t1, unit, sinks, h1, hu, hl, hs⟩ :=
          bgfBranch_vector_index stof hstof m _ _ hb.2 hf
        exact ⟨t1, unit, sinks, by simp [hb.1], hb.2, h1, hu, hl, hs⟩
      · rw [if_neg hb] at hf
        by_cases ha : p0 = bytes "AIN" ∧ (p0 :: rest).length ≥ 2
        · rw [if_pos ha] at hf
          obtain ⟨p1, _, e1⟩ := vget_ok_of_lt (p0 :: rest) 1 ha.2
          simp only [e1] at hf
          cases hu : stoi p1 with
          | error e =>
            simp only [hu, Option.some.injEq] at hf
            exact absurd (hf ▸ hu) (stoi_ne_vector_index p1)
          | ok count =>
            simp only [hu] at hf
            have hn := ainLoop_no_fault (F := F) (p0 :: rest).length 0 count (p0 :: rest)
            generalize ainLoop (p0 :: rest).length 0 count (p0 :: rest) = r at hf hn
            obtain ⟨logged, fl⟩ := r
            simp only at hn
            subst hn
            simp at hf
        · rw [if_neg ha] at hf
          split at hf <;> simp at hf

/-- C20: the accesses to the token list made by `process_line` are all within its bounds, so
an access outside a vector can only be a sink access: when `process_line` ends in one, the
line is a status line of at least 7 tokens for a registered unit whose entry holds fewer than
two sinks.  Hence with at least two sinks in every registry entry no access is out of bounds;
and a registered entry with fewer than two sinks makes a status line for that unit, with a
status that `std::stoi` accepts, end in an access outside the vector. -/
theorem index_safety (stof : Str → Except Fault F)
    (hstof : ∀ s, stof s ≠ .error .vector_index) (m : Registry) (line : Str) :
    ((process_line stof m line).fault = some .vector_index →
      ∃ t1 unit sinks, (lineTokens line)[0]? = some (bytes "BGF") ∧
        7 ≤ (lineTokens line).length ∧ (lineTokens line)[1]? = some t1 ∧ stoi t1 = .ok unit ∧
        m.lookup unit = some sinks ∧ sinks.length < 2) ∧
    ((∀ e ∈ m, 2 ≤ e.2.length) →
      (process_line stof m line).fault ≠ some .vector_index) ∧
    (∀ (t1 t2 : Str) (unit status : Int) (sinks : List SinkId),
      (lineTokens line)[0]? = some (bytes "BGF") → 7 ≤ (lineTokens line).length →
      (lineTokens line)[1]? = some t1 → stoi t1 = .ok unit →
      (lineTokens line)[2]? = some t2 → stoi t2 = .ok status →
      m.lookup unit = some sinks → sinks.length < 2 →
      (process_line stof m line).fault = some .vector_index) := by
  refine ⟨process_line_vector_index stof hstof m line, ?_, ?_⟩
  · intro hm hf
    obtain ⟨t1, unit, sinks, _, _, _, _, hl, hs⟩ := process_line_vector_index stof hstof m line hf
    have := hm (unit, sinks) (mem_of_lookup m unit sinks hl)
    simp only at this
    omega
  · intro t1 t2 unit status sinks h0 h7 h1 hu h2 hst hl hs
    rw [process_line_bgf stof m line h0 h7]
    unfold bgfBranch
    simp only [vget_of_getElem? h1, hu, Registry.count_of_lookup hl, Registry.index_of_lookup hl,
      vget_of_getElem? h2, hst, gt_iff_lt, Nat.lt_one_iff, Nat.one_pos, ↓reduceIte]
    match sinks, hs with
    | [], _ => rfl
    | [s0], _ => rfl

/-- C20 on the status line of the protocol example with unit 0 registered with one sink: the
status is published to it, and the access to the resistance sink is outside the vector. -/
theorem index_safety_witness :
    process_line stofDecimal [(0, [10])] (bytes "BGF 0 1 100052 18496 184 6859 *BD") =
      ⟨[Event.publish 10 (Val.ofInt 1)], [(0, [10])], some Fault.vector_index⟩ ∧
    (process_line stofDecimal [(0, [10, 11])]
      (bytes "BGF 0 1 100052 18496 184 6859 *BD")).fault ≠ some Fault.vector_index :=
  ⟨by decide,
    (index_safety stofDecimal stofDecimal_ne_vector_index [(0, [10, 11])]
      (bytes "BGF 0 1 100052 18496 184 6859 *BD")).2.1 (by decide)⟩

/-! ## The loop of the component implementation -/

theorem read_line_loop_length (line avail : Str) :
    (read_line_loop line avail).2.length ≤ avail.length := by
  induction avail generalizing line with
  | nil => simp [read_line_loop]
  | cons c rest ih =>
    unfold read_line_loop
    split
    · simp
    · split
      · exact Nat.le_succ_of_le (ih _)
      · exact Nat.le_succ_of_le (ih _)

theorem read_line_length (c : Byte) (rest : Str) :
    (read_line (c :: rest)).2.length ≤ rest.length := by
  unfold read_line read_line_loop
  split
  · exact Nat.le_refl _
  · split
    · exact read_line_loop_length _ _
    · exact read_line_loop_length _ _

theorem loop_component_fuel_indep (stof : Str → Except Fault F) (fuel fuel' : Nat) (m : Registry)
    (avail : Str) (h : avail.length ≤ fuel) (h' : avail.length ≤ fuel') :
    loop_component_fuel stof fuel m avail = loop_component_fuel stof fuel' m avail := by
  induction fuel generalizing fuel' m avail with
  | zero =>
    have : avail = [] := List.length_eq_zero.1 (Nat.le_zero.1 h)
    subst this
    cases fuel' <;> rfl
  | succ n ih =>
    cases avail with
    | nil => cases fuel' <;> rfl
    | cons c rest =>
      cases fuel' with
      | zero => simp at h'
      | succ n' =>
        have hl := read_line_length c rest
        simp only [List.length_cons] at h h'
        have e1 : ∀ m', loop_component_fuel stof n m' (read_line (c :: rest)).2 =
            loop_component_fuel stof n' m' (read_line (c :: rest)).2 :=
          fun m' => ih n' m' _ (by omega) (by omega)
        simp only [loop_component_fuel, e1]

theorem loop_component_cons (stof : Str → Except Fault F) (m : Registry) (c : Byte) (rest : Str) :
    loop_component stof m (c :: rest) =
      if (read_line (c :: rest)).1.isEmpty then
        ⟨Event.log (Diag.checksumFailedOrEmpty (read_line (c :: rest)).1) ::
            (loop_component stof m (read_line (c :: rest)).2).events,
          (loop_component stof m (read_line (c :: rest)).2).bender_sensors,
          (loop_component stof m (read_line (c :: rest)).2).fault⟩
      else if validate_checksum_component (read_line (c :: rest)).1 then
        match (process_line_component stof m (read_line (c :: rest)).1).fault with
        | some e =>
          ⟨Event.validate (read_line (c :: rest)).1 :: Event.process (read_line (c :: rest)).1 ::
              (process_line_component stof m (read_line (c :: rest)).1).events,
            (process_line_component stof m (read_line (c :: rest)).1).bender_sensors, some e⟩
        | none =>
          ⟨Event.validate (read_line (c :: rest)).1 :: Event.process (read_line (c :: rest)).1 ::
              ((process_line_component stof m (read_line (c :: rest)).1).events ++
                (loop_component stof
                  (process_line_component stof m (read_line (c :: rest)).1).bender_sensors
                  (read_line (c :: rest)).2).events),
            (loop_component stof
              (process_line_component stof m (read_line (c :: rest)).1).bender_sensors
              (read_line (c :: rest)).2).bender_sensors,
            (loop_component stof
              (process_line_component stof m (read_line (c :: rest)).1).bender_sensors
              (read_line (c :: rest)).2).fault⟩
      else
        ⟨Event.validate (read_line (c :: rest)).1 ::
            Event.log (Diag.checksumFailedOrEmpty (read_line (c :: rest)).1) ::
            (loop_component stof m (read_line (c :: rest)).2).events,
          (loop_component stof m (read_line (c :: rest)).2).bender_sensors,
          (loop_component stof m (read_line (c :: rest)).2).fault⟩ := by
  have hl := read_line_length c rest
  have e1 : ∀ m', loop_component_fuel stof rest.length m' (read_line (c :: rest)).2 =
      loop_component stof m' (read_line (c :: rest)).2 :=
    fun m' => loop_component_fuel_indep stof _ _ m' _ hl (Nat.le_refl _)
  simp only [loop_component, List.length_cons, loop_component_fuel, e1]

theorem read_line_loop_CR (line crs rest : Str) (h : ∀ c ∈ crs, c = CR) :
    read_line_loop line (crs ++ LF :: rest) = (line, rest) := by
  induction crs with
  | nil => simp [read_line_loop]
  | cons c r ih =>
    have hc : c = CR := h c (List.mem_cons_self _ _)
    subst hc
    have : CR ≠ LF := by decide
    simp only [List.cons_append, read_line_loop, this, ↓reduceIte, ne_eq, not_true_eq_false]
    exact ih (fun x hx => h x (List.mem_cons_of_mem _ hx))

/-- C13, as amended: an empty accumulated line at a line feed (the buffer empty, then any
number of carriage returns, then the line feed) produces no message, `validate_checksum` and
`process_line` are not called and nothing is published, and it produces exactly one log call,
the warning "Checksum validation failed or line is empty" with the empty line; the bytes that
follow are processed as from the state before.  This holds in the header and in the
component implementation. -/
theorem empty_line_logged (stof : Str → Except Fault F) (st : Core) (crs rest : Str)
    (h0 : st.fault = none) (hline : st.line = []) (hcr : ∀ c ∈ crs, c = CR) :
    loop stof st (crs ++ [LF]) = (st, [Event.log (Diag.checksumFailedOrEmpty [])]) ∧
    loop stof st (crs ++ LF :: rest) =
      ((loop stof st rest).1,
        Event.log (Diag.checksumFailedOrEmpty []) :: (loop stof st rest).2) ∧
    loop_component stof st.bender_sensors (crs ++ [LF]) =
      ⟨[Event.log (Diag.checksumFailedOrEmpty [])], st.bender_sensors, none⟩ ∧
    loop_component stof st.bender_sensors (crs ++ LF :: rest) =
      ⟨Event.log (Diag.checksumFailedOrEmpty []) ::
          (loop_component stof st.bender_sensors rest).events,
        (loop_component stof st.bender_sensors rest).bender_sensors,
        (loop_component stof st.bender_sensors rest).fault⟩ := by
  have hlf : LF ∉ crs := by
    intro hm
    exact absurd (hcr LF hm) (by decide)
  have hfil : crs.filter (fun c => c != CR) = [] := by
    rw [List.filter_eq_nil_iff]
    intro c hc
    simp [hcr c hc]
  have key : loop stof st (crs ++ [LF]) = (st, [Event.log (Diag.checksumFailedOrEmpty [])]) := by
    rw [loop_append, loop_noLF stof st crs h0 hlf]
    simp only [hline, hfil, List.append_nil, List.nil_append]
    rw [loop_cons stof { st with line := [] } LF [] h0]
    simp only [loopByte, ↓reduceIte, List.isEmpty_nil, loop, List.append_nil]
    cases st
    simp_all
  have keyc : ∀ r : Str, loop_component stof st.bender_sensors (crs ++ LF :: r) =
      ⟨Event.log (Diag.checksumFailedOrEmpty []) ::
          (loop_component stof st.bender_sensors r).events,
        (loop_component stof st.bender_sensors r).bender_sensors,
        (loop_component stof st.bender_sensors r).fault⟩ := by
    intro r
    have hr : read_line (crs ++ LF :: r) = ([], r) := read_line_loop_CR [] crs r hcr
    cases hq : crs ++ LF :: r with
    | nil => simp at hq
    | cons c t =>
      rw [loop_component_cons, ← hq, hr]
      rfl
  refine ⟨key, ?_, keyc [], keyc rest⟩
  have : crs ++ LF :: rest = (crs ++ [LF]) ++ rest := by simp
  rw [this, loop_append, key]
  rfl

set_option maxRecDepth 100000

/-- C13 on a carriage return and a line feed followed by a second line feed. -/
theorem empty_line_logged_witness :
    loop stofDecimal (Core.start [(0, [10, 11])]) (bytes "\r\n\n") =
      (Core.start [(0, [10, 11])],
        [Event.log (Diag.checksumFailedOrEmpty []), Event.log (Diag.checksumFailedOrEmpty [])]) :=
  ((empty_line_logged stofDecimal (Core.start [(0, [10, 11])]) [CR] [LF] rfl rfl
    (by decide)).2.1).trans (by decide)

/-- C13, counterexample: on the inputs of a single line feed, of a carriage return and a line
feed, and of two line feeds, both implementations make the log call "Checksum validation
failed or line is empty", once per empty line. -/
theorem empty_line_counterexample :
    diagnostics (loop stofDecimal (Core.start []) (bytes "\n")).2 =
      [Diag.checksumFailedOrEmpty []] ∧
    diagnostics (loop stofDecimal (Core.start []) (bytes "\r\n")).2 =
      [Diag.checksumFailedOrEmpty []] ∧
    diagnostics (loop stofDecimal (Core.start []) (bytes "\n\n")).2 =
      [Diag.checksumFailedOrEmpty [], Diag.checksumFailedOrEmpty []] ∧
    diagnostics (loop_component stofDecimal [] (bytes "\n") : Outcome FloatText).events =
      [Diag.checksumFailedOrEmpty []] ∧
    diagnostics (loop_component stofDecimal [] (bytes "\r\n") : Outcome FloatText).events =
      [Diag.checksumFailedOrEmpty []] ∧
    diagnostics (loop_component stofDecimal [] (bytes "\n\n") : Outcome FloatText).events =
      [Diag.checksumFailedOrEmpty [], Diag.checksumFailedOrEmpty []] := by
  decide

/-- C15: the frame `BGF 0 1 9 9 9 5 *F0` with its line feed, unit 0 registered.  With all
bytes available in one call the component implementation validates and processes the line
and publishes status and resistance.  With the bytes in the two chunks `BGF 0 1 9` and
` 9 9 5 *F0` plus line feed, `read_line` returns each chunk as a line of its own: both are
validated and discarded with the warning, the frame is never processed and nothing is
published.  The header implementation, which keeps the line across calls, gives on the two
chunks what it gives on the whole. -/
theorem component_partial_line_lost :
    validate_checksum_component (bytes "BGF 0 1 9 9 9 5 *F0") = true ∧
    loops_component stofDecimal [(0, [10, 11])] [bytes "BGF 0 1 9 9 9 5 *F0\n"] =
      ⟨[Event.validate (bytes "BGF 0 1 9 9 9 5 *F0"), Event.process (bytes "BGF 0 1 9 9 9 5 *F0"),
        Event.publish 10 (Val.ofInt 1),
        Event.publish 11 (Val.ofFloat (FloatText.decimal false 5 0))],
        [(0, [10, 11])], none⟩ ∧
    loops_component stofDecimal [(0, [10, 11])] [bytes "BGF 0 1 9", bytes " 9 9 5 *F0\n"] =
      ⟨[Event.validate (bytes "BGF 0 1 9"),
        Event.log (Diag.checksumFailedOrEmpty (bytes "BGF 0 1 9")),
        Event.validate (bytes " 9 9 5 *F0"),
        Event.log (Diag.checksumFailedOrEmpty (bytes " 9 9 5 *F0"))],
        [(0, [10, 11])], none⟩ ∧
    loops stofDecimal (Core.start [(0, [10, 11])]) [bytes "BGF 0 1 9", bytes " 9 9 5 *F0\n"] =
      loops stofDecimal (Core.start [(0, [10, 11])]) [bytes "BGF 0 1 9 9 9 5 *F0\n"] ∧
    publications (loops stofDecimal (Core.start [(0, [10, 11])])
        [bytes "BGF 0 1 9", bytes " 9 9 5 *F0\n"]).2 =
      [(10, Val.ofInt 1), (11, Val.ofFloat (FloatText.decimal false 5 0))] := by
  decide

/-! ## The frames of the protocol documentation -/

end BenderSerialSensor
